import Mathlib

/-!
# Verification of the blimu-cli configuration validation engine

Shallow embedding of the validation core of `blimu-cli`
(`pkg/blimu/validator.go`, `pkg/config/merge.go`) together with proofs of
the specification claims about it.

Go maps are embedded as association lists (`List (String × _)`): a Go map
has pairwise-distinct keys and an unspecified iteration order, so theorems
that depend on key uniqueness take a `Nodup` hypothesis on the key list.
A Go `nil` map is distinguished from an empty map (`Option` around the
list) where the distinction is observable (`MergeToJSON`).
-/

namespace Blimu

/-- Association-list lookup, embedding a Go map read `m[k]` (comma-ok form).
Keys of an embedded Go map are pairwise distinct, so "first match" agrees
with the map semantics. -/
def lookupKey (k : String) : List (String × α) → Option α
  | [] => none
  | (k', v) :: rest => if k = k' then some v else lookupKey k rest

/-- Embeds Go `strings.Split(s, sep)` for a one-character separator,
at the level of character lists. -/
def splitCharList (sep : Char) : List Char → List (List Char)
  | [] => [[]]
  | a :: rest =>
    if a = sep then [] :: splitCharList sep rest
    else
      match splitCharList sep rest with
      | [] => [[a]]
      | h :: t => (a :: h) :: t

/-- Go `strings.Split(s, sep)` for a one-character separator. -/
def goSplit (sep : Char) (s : String) : List String :=
  (splitCharList sep s.data).map (fun l => ⟨l⟩)

/-- Embeds Go `strings.Split(s, "->")` (leftmost, non-overlapping). -/
def splitArrowChars : List Char → List (List Char)
  | [] => [[]]
  | '-' :: '>' :: rest => [] :: splitArrowChars rest
  | a :: rest =>
    match splitArrowChars rest with
    | [] => [[a]]
    | h :: t => (a :: h) :: t

/-- Go `strings.Split(s, "->")`. -/
def goSplitArrow (s : String) : List String :=
  (splitArrowChars s.data).map (fun l => ⟨l⟩)

/-- The whitespace predicate used by Go `strings.TrimSpace` (restricted to
the ASCII whitespace characters that can occur in configuration files). -/
def isSpaceChar (c : Char) : Bool :=
  c = ' ' || c = '\t' || c = '\n' || c = '\r'

/-- Embeds Go `strings.TrimSpace`. -/
def goTrimSpace (s : String) : String :=
  ⟨((s.data.dropWhile isSpaceChar).reverse.dropWhile isSpaceChar).reverse⟩

/-- `config.ParentConfig`: parent resource configuration. -/
structure ParentConfig where
  Required : Bool
  deriving DecidableEq

/-- `config.ResourceConfig`: a single resource configuration.
`RolesInheritance` and `Parents` are Go maps, embedded as association lists. -/
structure ResourceConfig where
  Roles : List String
  RolesInheritance : List (String × List String)
  Parents : List (String × ParentConfig)
  deriving DecidableEq

/-- `config.EntitlementConfig`. -/
structure EntitlementConfig where
  Roles : List String
  Plans : List String
  deriving DecidableEq

/-- `config.FeatureConfig`. -/
structure FeatureConfig where
  Plans : List String
  DefaultEnabled : Bool
  Entitlements : List String
  deriving DecidableEq

/-- `config.PlanConfig`. -/
structure PlanConfig where
  Name : String
  Description : String
  deriving DecidableEq

/-- `config.SDKClient`: configuration for a single client SDK.
The Go field `Type` is embedded as `ClientType` (`Type` is reserved in Lean). -/
structure SDKClient where
  ClientType : String
  OutDir : String
  PackageName : String
  ModuleName : String
  Name : String
  IncludeTags : List String
  ExcludeTags : List String
  IncludeQueryKeys : Bool
  OperationIDParser : String
  PostGenCommand : String
  deriving DecidableEq

/-- `config.SDKConfig`: SDK generation configuration. -/
structure SDKConfig where
  Name : String
  BaseURL : String
  Clients : List SDKClient
  deriving DecidableEq

/-- `config.BlimuConfig`. Each section is a Go map that may be `nil`
(embedded as `none`) or present (embedded as `some` association list). -/
structure BlimuConfig where
  Resources : Option (List (String × ResourceConfig))
  Entitlements : Option (List (String × EntitlementConfig))
  Features : Option (List (String × FeatureConfig))
  Plans : Option (List (String × PlanConfig))
  SDKConfig : Option SDKConfig
  deriving DecidableEq

/-- `blimu.ValidationError`. -/
structure ValidationError where
  Resource : String
  Field : String
  Message : String
  deriving DecidableEq

/-- `blimu.ValidationResult`. -/
structure ValidationResult where
  Valid : Bool
  Errors : List ValidationError
  deriving DecidableEq

/-- `blimu.contains`: membership in a string slice. -/
def contains (slice : List String) (item : String) : Bool :=
  match slice with
  | [] => false
  | s :: rest => if s = item then true else contains rest item

/-- Keys of an embedded Go map. -/
def keysOf (l : List (String × α)) : List String := l.map Prod.fst

lemma lookupKey_isSome_mem {l : List (String × α)} {k : String} :
    (lookupKey k l).isSome = true ↔ k ∈ keysOf l := by
  induction l with
  | nil => simp [lookupKey, keysOf]
  | cons p rest ih =>
    obtain ⟨k', v⟩ := p
    simp only [keysOf, List.map_cons, List.mem_cons]
    by_cases h : k = k'
    · subst h; simp [lookupKey]
    · simp only [lookupKey, if_neg h]
      rw [ih]
      simp [keysOf, h]

lemma lookupKey_mem_keys {l : List (String × α)} {k : String} {v : α}
    (h : lookupKey k l = some v) : k ∈ keysOf l := by
  have : (lookupKey k l).isSome = true := by rw [h]; rfl
  exact lookupKey_isSome_mem.mp this

lemma lookupKey_mem_pair {l : List (String × α)} {k : String} {v : α}
    (h : lookupKey k l = some v) : (k, v) ∈ l := by
  induction l with
  | nil => simp [lookupKey] at h
  | cons p rest ih =>
    cases p with
    | mk k' v' =>
      by_cases hk : k = k'
      · subst hk
        simp [lookupKey] at h
        subst h; exact List.mem_cons_self _ _
      · simp [lookupKey, hk] at h
        exact List.mem_cons_of_mem _ (ih h)

lemma contains_iff_mem (slice : List String) (item : String) :
    contains slice item = true ↔ item ∈ slice := by
  induction slice with
  | nil => simp [contains]
  | cons s rest ih =>
    simp only [contains]
    by_cases h : s = item
    · subst h; simp
    · rw [if_neg h, ih]
      constructor
      · exact fun hm => List.mem_cons_of_mem _ hm
      · intro hm
        rcases List.mem_cons.mp hm with he | hm'
        · exact absurd he.symm h
        · exact hm'

/-- Size of the set of resource keys not yet on the DFS path; the
termination measure of `hasCircularDependency`. -/
def unvisitedCount (allResources : List (String × ResourceConfig))
    (visited : List String) : Nat :=
  ((keysOf allResources).filter (fun k => decide (k ∉ visited))).length

lemma filter_unvisited_cons_le (t : List String) (c : String)
    (visited : List String) :
    (t.filter (fun k => decide (k ∉ c :: visited))).length ≤
      (t.filter (fun k => decide (k ∉ visited))).length := by
  apply List.Sublist.length_le
  apply List.monotone_filter_right
  intro x hx
  simp at hx ⊢
  exact hx.2

lemma unvisitedCount_cons_lt {allResources : List (String × ResourceConfig)}
    {current : String} {visited : List String}
    (hmem : current ∈ keysOf allResources) (hnv : current ∉ visited) :
    unvisitedCount allResources (current :: visited) <
      unvisitedCount allResources visited := by
  unfold unvisitedCount
  generalize keysOf allResources = l at hmem
  induction l with
  | nil => cases hmem
  | cons a t ih =>
    by_cases hac : a = current
    · subst hac
      have hfa : List.filter (fun k => decide (k ∉ a :: visited)) (a :: t) =
          List.filter (fun k => decide (k ∉ a :: visited)) t := by
        simp [List.filter_cons]
      have hfb : List.filter (fun k => decide (k ∉ visited)) (a :: t) =
          a :: List.filter (fun k => decide (k ∉ visited)) t := by
        simp [List.filter_cons, hnv]
      rw [hfa, hfb]
      simp only [List.length_cons]
      have := filter_unvisited_cons_le t a visited
      omega
    · have hmem' : current ∈ t := by
        rcases List.mem_cons.mp hmem with h | h
        · exact absurd h.symm hac
        · exact h
      have ihh := ih hmem'
      by_cases hav : a ∈ visited
      · have hfa : List.filter (fun k => decide (k ∉ current :: visited)) (a :: t) =
            List.filter (fun k => decide (k ∉ current :: visited)) t := by
          simp [List.filter_cons, hav]
        have hfb : List.filter (fun k => decide (k ∉ visited)) (a :: t) =
            List.filter (fun k => decide (k ∉ visited)) t := by
          simp [List.filter_cons, hav]
        rw [hfa, hfb]; exact ihh
      · have hfa : List.filter (fun k => decide (k ∉ current :: visited)) (a :: t) =
            a :: List.filter (fun k => decide (k ∉ current :: visited)) t := by
          simp [List.filter_cons, hav, hac]
        have hfb : List.filter (fun k => decide (k ∉ visited)) (a :: t) =
            a :: List.filter (fun k => decide (k ∉ visited)) t := by
          simp [List.filter_cons, hav]
        rw [hfa, hfb]
        simp only [List.length_cons]
        omega

/-- `blimu.hasCircularDependency`: depth-first walk along `parents` edges
from `current`, looking for `target`, with a path-scoped visited set
(the Go code deletes `current` from `visited` on every return path, so the
mutable set behaves exactly like this persistent parameter). -/
def hasCircularDependency (current target : String)
    (allResources : List (String × ResourceConfig))
    (visited : List String) : Bool :=
  if current ∈ visited then current == target
  else
    match hl : lookupKey current allResources with
    | none => false
    | some resource =>
      resource.Parents.any (fun p =>
        p.1 == target ||
          hasCircularDependency p.1 target allResources (current :: visited))
termination_by unvisitedCount allResources visited
decreasing_by
  exact unvisitedCount_cons_lt (lookupKey_mem_keys hl) (by assumption)

/-- Fuel-bounded variant of `hasCircularDependency`, used to express the
recursion-depth bound (claim C10) and for inductive proofs. -/
def hasCircFuel : Nat → String → String →
    List (String × ResourceConfig) → List String → Bool
  | 0, _, _, _, _ => false
  | fuel + 1, current, target, allResources, visited =>
    if current ∈ visited then current == target
    else
      match lookupKey current allResources with
      | none => false
      | some resource =>
        resource.Parents.any (fun p =>
          p.1 == target ||
            hasCircFuel fuel p.1 target allResources (current :: visited))

/-! ## Validation error messages (the `fmt.Sprintf` formats of validator.go) -/

/-- Message of the empty-roles error. -/
def rolesEmptyMsg : String := "at least one role must be defined"

/-- `fmt.Sprintf("role '%s' not found in roles list", role)` -/
def roleNotInListMsg (role : String) : String :=
  "role '" ++ (role ++ "' not found in roles list")

/-- `fmt.Sprintf("invalid inheritance '%s': %s", inheritance, err)` -/
def invalidInheritanceMsg (inheritance err : String) : String :=
  "invalid inheritance '" ++ (inheritance ++ ("': " ++ err))

/-- `fmt.Sprintf("parent resource '%s' not found", parentName)` -/
def parentNotFoundMsg (parentName : String) : String :=
  "parent resource '" ++ (parentName ++ "' not found")

/-- `fmt.Sprintf("circular dependency detected with parent '%s'", parentName)` -/
def circularDepMsg (parentName : String) : String :=
  "circular dependency detected with parent '" ++ (parentName ++ "'")

/-- Message of the malformed-inheritance error of `validateInheritance`. -/
def inheritanceFormatMsg : String := "inheritance must be in format 'resource->role'"

/-- `fmt.Sprintf("resource '%s' not found", resourceName)` (validateInheritance) -/
def inhResourceNotFoundMsg (resourceName : String) : String :=
  "resource '" ++ (resourceName ++ "' not found")

/-- `fmt.Sprintf("role '%s' not found in resource '%s'", roleName, resourceName)` -/
def inhRoleNotFoundMsg (roleName resourceName : String) : String :=
  "role '" ++ (roleName ++ ("' not found in resource '" ++ (resourceName ++ "'")))

/-- Message of the malformed-entitlement-name error. -/
def entitlementFormatMsg : String := "entitlement name must be in format 'resource:action'"

/-- `fmt.Sprintf("resource '%s' not found in resources.yml", resourceName)` -/
def entResourceNotFoundMsg (resourceName : String) : String :=
  "resource '" ++ (resourceName ++ "' not found in resources.yml")

/-- `fmt.Sprintf("role '%s' not found in resource '%s'", role, resourceName)`
(validateEntitlement; same format as `inhRoleNotFoundMsg`). -/
def entRoleNotFoundMsg (role resourceName : String) : String :=
  "role '" ++ (role ++ ("' not found in resource '" ++ (resourceName ++ "'")))

/-- `fmt.Sprintf("plan '%s' not found in plans.yml", plan)` -/
def planNotFoundMsg (plan : String) : String :=
  "plan '" ++ (plan ++ "' not found in plans.yml")

/-- `fmt.Sprintf("entitlement '%s' not found in entitlements.yml", entitlement)` -/
def entitlementNotFoundMsg (entitlement : String) : String :=
  "entitlement '" ++ (entitlement ++ "' not found in entitlements.yml")

/-- `fmt.Sprintf("unsupported client type '%s'. Supported types: %s", ...)` -/
def unsupportedTypeMsg (t : String) : String :=
  "unsupported client type '" ++ (t ++ "'. Supported types: typescript, go")

/-- `fmt.Sprintf("output directory '%s' is already used by clients[%d]", ...)` -/
def dupOutDirMsg (outDir : String) (existingIndex : Nat) : String :=
  "output directory '" ++ (outDir ++ ("' is already used by clients[" ++
    (toString existingIndex ++ "]")))

/-- `fmt.Sprintf("clients[%d]", i)` -/
def clientFieldName (i : Nat) : String := "clients[" ++ (toString i ++ "]")

/-! ## The validators of validator.go, as pure error-list producers.

The Go validators append to `result.Errors` through a pointer; appending
to an accumulator in iteration order is functionally the concatenation of
the per-item error lists, which is how they are embedded here. -/

/-- `blimu.validateInheritance`. Go returns `error`; embedded as
`Option String` carrying the error message (`none` = `nil`). -/
def validateInheritance (inheritance : String)
    (allResources : List (String × ResourceConfig)) : Option String :=
  match goSplitArrow inheritance with
  | [l, r] =>
    let resourceName := goTrimSpace l
    let roleName := goTrimSpace r
    match lookupKey resourceName allResources with
    | none => some (inhResourceNotFoundMsg resourceName)
    | some resource =>
      if contains resource.Roles roleName then none
      else some (inhRoleNotFoundMsg roleName resourceName)
  | _ => some inheritanceFormatMsg

/-- The empty-roles check of `blimu.validateResource`. -/
def resourceRolesErrors (name : String) (resource : ResourceConfig) :
    List ValidationError :=
  if resource.Roles.isEmpty then
    [{ Resource := name, Field := "roles", Message := rolesEmptyMsg }]
  else []

/-- The role-inheritance loop of `blimu.validateResource`. -/
def resourceInheritanceErrors (name : String) (resource : ResourceConfig)
    (allResources : List (String × ResourceConfig)) : List ValidationError :=
  resource.RolesInheritance.bind (fun ri =>
    (if contains resource.Roles ri.1 then []
     else [{ Resource := name, Field := "roles_inheritance",
             Message := roleNotInListMsg ri.1 }])
    ++ ri.2.bind (fun inheritance =>
        match validateInheritance inheritance allResources with
        | some err => [{ Resource := name, Field := "roles_inheritance",
                         Message := invalidInheritanceMsg inheritance err }]
        | none => []))

/-- The parents loop of `blimu.validateResource` (existence check and
circular-dependency check per parent entry). -/
def resourceParentsErrors (name : String) (resource : ResourceConfig)
    (allResources : List (String × ResourceConfig)) : List ValidationError :=
  resource.Parents.bind (fun p =>
    (if (lookupKey p.1 allResources).isSome then []
     else [{ Resource := name, Field := "parents",
             Message := parentNotFoundMsg p.1 }])
    ++ (if hasCircularDependency p.1 name allResources [] then
          [{ Resource := name, Field := "parents",
             Message := circularDepMsg p.1 }]
        else []))

/-- `blimu.validateResource`: the three checks in source order. -/
def validateResource (name : String) (resource : ResourceConfig)
    (allResources : List (String × ResourceConfig)) : List ValidationError :=
  resourceRolesErrors name resource
  ++ resourceInheritanceErrors name resource allResources
  ++ resourceParentsErrors name resource allResources

/-- `blimu.validateEntitlement`. -/
def validateEntitlement (name : String) (entitlement : EntitlementConfig)
    (config : BlimuConfig) : List ValidationError :=
  match goSplit ':' name with
  | [resourceName, _action] =>
    (match lookupKey resourceName (config.Resources.getD []) with
     | none => [{ Resource := "entitlements", Field := name,
                  Message := entResourceNotFoundMsg resourceName }]
     | some _ => [])
    ++ (match lookupKey resourceName (config.Resources.getD []) with
        | some resource =>
          entitlement.Roles.bind (fun role =>
            if contains resource.Roles role then []
            else [{ Resource := "entitlements", Field := name,
                    Message := entRoleNotFoundMsg role resourceName }])
        | none => [])
    ++ entitlement.Plans.bind (fun plan =>
        if (lookupKey plan (config.Plans.getD [])).isSome then []
        else [{ Resource := "entitlements", Field := name,
                Message := planNotFoundMsg plan }])
  | _ => [{ Resource := "entitlements", Field := name,
            Message := entitlementFormatMsg }]

/-- `blimu.validateFeature`. -/
def validateFeature (name : String) (feature : FeatureConfig)
    (config : BlimuConfig) : List ValidationError :=
  feature.Plans.bind (fun plan =>
    if (lookupKey plan (config.Plans.getD [])).isSome then []
    else [{ Resource := "features", Field := name,
            Message := planNotFoundMsg plan }])
  ++ feature.Entitlements.bind (fun entitlement =>
      if (lookupKey entitlement (config.Entitlements.getD [])).isSome then []
      else [{ Resource := "features", Field := name,
              Message := entitlementNotFoundMsg entitlement }])

/-- `blimu.validatePlan`. -/
def validatePlan (name : String) (plan : PlanConfig) : List ValidationError :=
  (if goTrimSpace plan.Name = "" then
    [{ Resource := "plans", Field := name, Message := "plan must have a name" }]
   else [])
  ++ (if goTrimSpace plan.Description = "" then
      [{ Resource := "plans", Field := name,
         Message := "plan must have a description" }]
     else [])

/-- The per-client field checks of `blimu.validateSDKConfig`. -/
def validateSDKClient (i : Nat) (client : SDKClient) : List ValidationError :=
  (if goTrimSpace client.ClientType = "" then
    [{ Resource := "config", Field := clientFieldName i ++ ".type",
       Message := "client type is required" }]
   else if contains ["typescript", "go"] client.ClientType then []
   else
    [{ Resource := "config", Field := clientFieldName i ++ ".type",
       Message := unsupportedTypeMsg client.ClientType }])
  ++ (if goTrimSpace client.OutDir = "" then
      [{ Resource := "config", Field := clientFieldName i ++ ".outDir",
         Message := "output directory is required" }]
     else [])
  ++ (if goTrimSpace client.PackageName = "" then
      [{ Resource := "config", Field := clientFieldName i ++ ".packageName",
         Message := "package name is required" }]
     else [])
  ++ (if goTrimSpace client.Name = "" then
      [{ Resource := "config", Field := clientFieldName i ++ ".name",
         Message := "client name is required" }]
     else [])
  ++ (if client.ClientType = "go" && goTrimSpace client.ModuleName = "" then
      [{ Resource := "config", Field := clientFieldName i ++ ".moduleName",
         Message := "module name is required for Go clients" }]
     else [])

/-- The duplicate-output-directory loop of `blimu.validateSDKConfig`:
`outDirs` maps an already-seen outDir to the index of its first occupant. -/
def dupOutDirLoop : List SDKClient → Nat → List (String × Nat) →
    List ValidationError
  | [], _, _ => []
  | client :: rest, i, outDirs =>
    if client.OutDir ≠ "" then
      match lookupKey client.OutDir outDirs with
      | some existingIndex =>
        { Resource := "config",
          Field := clientFieldName i ++ ".outDir",
          Message := dupOutDirMsg client.OutDir existingIndex }
          :: dupOutDirLoop rest (i + 1) outDirs
      | none => dupOutDirLoop rest (i + 1) ((client.OutDir, i) :: outDirs)
    else dupOutDirLoop rest (i + 1) outDirs

/-- The duplicate-output-directory errors of `blimu.validateSDKConfig`. -/
def dupOutDirErrors (clients : List SDKClient) : List ValidationError :=
  dupOutDirLoop clients 0 []

/-- Per-client errors, in index order (the first loop of validateSDKConfig). -/
def clientErrors (clients : List SDKClient) : List ValidationError :=
  (List.range clients.length).bind (fun i =>
    match clients.get? i with
    | some c => validateSDKClient i c
    | none => [])

/-- `blimu.validateSDKConfig`. -/
def validateSDKConfig (sdkConfig : SDKConfig) : List ValidationError :=
  if sdkConfig.Clients.isEmpty then
    [{ Resource := "config", Field := "clients",
       Message := "at least one client must be defined" }]
  else clientErrors sdkConfig.Clients ++ dupOutDirErrors sdkConfig.Clients

/-! ## ValidateConfig -/

/-- Errors contributed by the resources section of `ValidateConfig`. -/
def resourcesErrors (config : BlimuConfig) : List ValidationError :=
  (config.Resources.getD []).bind (fun r =>
    validateResource r.1 r.2 (config.Resources.getD []))

/-- Errors contributed by the entitlements section of `ValidateConfig`. -/
def entitlementsErrors (config : BlimuConfig) : List ValidationError :=
  (config.Entitlements.getD []).bind (fun e =>
    validateEntitlement e.1 e.2 config)

/-- Errors contributed by the features section of `ValidateConfig`. -/
def featuresErrors (config : BlimuConfig) : List ValidationError :=
  (config.Features.getD []).bind (fun f => validateFeature f.1 f.2 config)

/-- Errors contributed by the plans section of `ValidateConfig`. -/
def plansErrors (config : BlimuConfig) : List ValidationError :=
  (config.Plans.getD []).bind (fun p => validatePlan p.1 p.2)

/-- Errors contributed by the SDK-configuration section of `ValidateConfig`
(`nil` SDK config is skipped). -/
def sdkErrors (config : BlimuConfig) : List ValidationError :=
  match config.SDKConfig with
  | some sdk => validateSDKConfig sdk
  | none => []

/-- `blimu.ValidateConfig`: runs every section's validator, accumulating
all errors, then sets `Valid := len(Errors) == 0`. -/
def ValidateConfig (config : BlimuConfig) : ValidationResult :=
  let errors :=
    resourcesErrors config ++ entitlementsErrors config ++
      featuresErrors config ++ plansErrors config ++ sdkErrors config
  { Valid := errors.isEmpty, Errors := errors }

/-! ## Distinguishing message shapes by their first two characters -/

lemma string_ne_of_take2 {a b : String} (h : a.data.take 2 ≠ b.data.take 2) :
    a ≠ b := fun he => h (by rw [he])

lemma take2_append (s t : String) (h : 2 ≤ s.data.length) :
    (s ++ t).data.take 2 = s.data.take 2 := by
  rw [String.data_append]
  exact List.take_append_of_le_length h

lemma take2_roleNotInListMsg (r : String) :
    (roleNotInListMsg r).data.take 2 = ['r', 'o'] := by
  unfold roleNotInListMsg
  rw [take2_append _ _ (by decide)]
  decide

lemma take2_invalidInheritanceMsg (t m : String) :
    (invalidInheritanceMsg t m).data.take 2 = ['i', 'n'] := by
  unfold invalidInheritanceMsg
  rw [take2_append _ _ (by decide)]
  decide

lemma take2_parentNotFoundMsg (p : String) :
    (parentNotFoundMsg p).data.take 2 = ['p', 'a'] := by
  unfold parentNotFoundMsg
  rw [take2_append _ _ (by decide)]
  decide

lemma take2_circularDepMsg (p : String) :
    (circularDepMsg p).data.take 2 = ['c', 'i'] := by
  unfold circularDepMsg
  rw [take2_append _ _ (by decide)]
  decide

lemma take2_entResourceNotFoundMsg (r : String) :
    (entResourceNotFoundMsg r).data.take 2 = ['r', 'e'] := by
  unfold entResourceNotFoundMsg
  rw [take2_append _ _ (by decide)]
  decide

lemma take2_entRoleNotFoundMsg (r rn : String) :
    (entRoleNotFoundMsg r rn).data.take 2 = ['r', 'o'] := by
  unfold entRoleNotFoundMsg
  rw [take2_append _ _ (by decide)]
  decide

lemma take2_inhResourceNotFoundMsg (r : String) :
    (inhResourceNotFoundMsg r).data.take 2 = ['r', 'e'] := by
  unfold inhResourceNotFoundMsg
  rw [take2_append _ _ (by decide)]
  decide

lemma take2_inhRoleNotFoundMsg (r rn : String) :
    (inhRoleNotFoundMsg r rn).data.take 2 = ['r', 'o'] := by
  unfold inhRoleNotFoundMsg
  rw [take2_append _ _ (by decide)]
  decide

lemma take2_planNotFoundMsg (p : String) :
    (planNotFoundMsg p).data.take 2 = ['p', 'l'] := by
  unfold planNotFoundMsg
  rw [take2_append _ _ (by decide)]
  decide

lemma take2_entitlementNotFoundMsg (e : String) :
    (entitlementNotFoundMsg e).data.take 2 = ['e', 'n'] := by
  unfold entitlementNotFoundMsg
  rw [take2_append _ _ (by decide)]
  decide

lemma take2_unsupportedTypeMsg (t : String) :
    (unsupportedTypeMsg t).data.take 2 = ['u', 'n'] := by
  unfold unsupportedTypeMsg
  rw [take2_append _ _ (by decide)]
  decide

lemma take2_dupOutDirMsg (d : String) (i : Nat) :
    (dupOutDirMsg d i).data.take 2 = ['o', 'u'] := by
  unfold dupOutDirMsg
  rw [take2_append _ _ (by decide)]
  decide

lemma take2_clientField (i : Nat) (suffix : String) :
    (clientFieldName i ++ suffix).data.take 2 = ['c', 'l'] := by
  unfold clientFieldName
  rw [String.append_assoc, take2_append _ _ (by decide)]
  decide

/-! ## The parents graph: edges, reachability, walks -/

/-- A directed edge of the parents graph: resource `a` lists `b` among its
parents (following exactly the lookups done by `hasCircularDependency`). -/
def parentEdge (allResources : List (String × ResourceConfig))
    (a b : String) : Prop :=
  ∃ rc, lookupKey a allResources = some rc ∧ b ∈ keysOf rc.Parents

/-- Reachability along `parents` edges (zero or more hops): "walking
parents edges starting from `a` can reach `b`". -/
inductive Reach (allResources : List (String × ResourceConfig)) :
    String → String → Prop
  | refl (a : String) : Reach allResources a a
  | head {a b c : String} : parentEdge allResources a b →
      Reach allResources b c → Reach allResources a c

/-- A walk of one or more `parents` edges from `a` to `b` through the
intermediate nodes `l` in order. -/
def parentWalk (allResources : List (String × ResourceConfig)) :
    String → List String → String → Prop
  | a, [], b => parentEdge allResources a b
  | a, x :: l, b => parentEdge allResources a x ∧ parentWalk allResources x l b

/-- The parents graph has no (non-empty) cycle. -/
def Acyclic (allResources : List (String × ResourceConfig)) : Prop :=
  ∀ a l, ¬ parentWalk allResources a l a

lemma any_congr_mem {l : List α} {p q : α → Bool}
    (h : ∀ a ∈ l, p a = q a) : l.any p = l.any q := by
  induction l with
  | nil => rfl
  | cons a t ih =>
    simp only [List.any_cons]
    rw [h a (List.mem_cons_self a t), ih (fun x hx => h x (List.mem_cons_of_mem a hx))]

/-- The fuel-bounded cycle check agrees with `hasCircularDependency` as soon
as the fuel exceeds the number of not-yet-visited resources: the recursion
depth of `hasCircularDependency` is bounded by the number of distinct
resources. -/
lemma hasCircFuel_agree : ∀ (fuel : Nat) (current target : String)
    (allResources : List (String × ResourceConfig)) (visited : List String),
    unvisitedCount allResources visited < fuel →
    hasCircFuel fuel current target allResources visited =
      hasCircularDependency current target allResources visited := by
  intro fuel
  induction fuel with
  | zero => intro _ _ _ _ h; omega
  | succ fuel ih =>
    intro current target allResources visited hfuel
    rw [hasCircularDependency]
    show (if current ∈ visited then current == target
      else
        match lookupKey current allResources with
        | none => false
        | some resource =>
          resource.Parents.any (fun p =>
            p.1 == target ||
              hasCircFuel fuel p.1 target allResources (current :: visited))) = _
    by_cases hv : current ∈ visited
    · simp [hv]
    · simp only [if_neg hv]
      cases hl : lookupKey current allResources with
      | none => rfl
      | some resource =>
        apply any_congr_mem
        intro p _
        have hlt : unvisitedCount allResources (current :: visited) < fuel := by
          have := unvisitedCount_cons_lt (lookupKey_mem_keys hl) hv
          omega
        rw [ih p.1 target allResources (current :: visited) hlt]

/-- Soundness of the fuel-bounded check: a `true` answer exhibits
reachability of `target` from `current`. -/
lemma hasCircFuel_sound : ∀ (fuel : Nat) (current target : String)
    (allResources : List (String × ResourceConfig)) (visited : List String),
    hasCircFuel fuel current target allResources visited = true →
    Reach allResources current target := by
  intro fuel
  induction fuel with
  | zero => intro _ _ _ _ h; simp [hasCircFuel] at h
  | succ fuel ih =>
    intro current target allResources visited h
    rw [hasCircFuel] at h
    by_cases hv : current ∈ visited
    · rw [if_pos hv] at h
      have : current = target := by simpa using h
      subst this; exact Reach.refl current
    · rw [if_neg hv] at h
      cases hl : lookupKey current allResources with
      | none => rw [hl] at h; cases h
      | some resource =>
        rw [hl] at h
        obtain ⟨p, hp, hval⟩ := List.any_eq_true.mp h
        have hval' : (p.1 == target) = true ∨
            hasCircFuel fuel p.1 target allResources (current :: visited) = true := by
          simpa using hval
        rcases hval' with htgt | hrec
        · have hpt : p.1 = target := by simpa using htgt
          subst hpt
          exact Reach.head ⟨resource, hl, List.mem_map_of_mem Prod.fst hp⟩
            (Reach.refl _)
        · exact Reach.head ⟨resource, hl, List.mem_map_of_mem Prod.fst hp⟩
            (ih p.1 target allResources (current :: visited) hrec)

/-- Completeness of the fuel-bounded check along a simple walk that avoids
the visited set and does not pass through `target` before its end. -/
lemma hasCircFuel_complete
    (allResources : List (String × ResourceConfig)) (target : String) :
    ∀ (nodes : List String) (current : String) (visited : List String)
      (fuel : Nat),
    parentWalk allResources current nodes target →
    (current :: nodes).Nodup →
    target ∉ current :: nodes →
    (∀ x ∈ current :: nodes, x ∉ visited) →
    unvisitedCount allResources visited < fuel →
    hasCircFuel fuel current target allResources visited = true := by
  intro nodes
  induction nodes with
  | nil =>
    intro current visited fuel hwalk _ _ havoid hfuel
    obtain ⟨rc, hl, hmem⟩ := hwalk
    cases fuel with
    | zero => omega
    | succ fuel =>
      rw [hasCircFuel]
      rw [if_neg (havoid current (List.mem_cons_self _ _)), hl]
      apply List.any_eq_true.mpr
      obtain ⟨p, hp, hfst⟩ := List.mem_map.mp hmem
      exact ⟨p, hp, by simp [hfst]⟩
  | cons w rest ih =>
    intro current visited fuel hwalk hnodup htgt havoid hfuel
    obtain ⟨⟨rc, hl, hwmem⟩, hwalkrest⟩ := hwalk
    cases fuel with
    | zero => omega
    | succ fuel =>
      rw [hasCircFuel]
      rw [if_neg (havoid current (List.mem_cons_self _ _)), hl]
      apply List.any_eq_true.mpr
      obtain ⟨p, hp, hfst⟩ := List.mem_map.mp hwmem
      refine ⟨p, hp, ?_⟩
      have hrec : hasCircFuel fuel p.1 target allResources (current :: visited)
          = true := ?_
      · simp [hrec]
      rw [hfst]
      apply ih w (current :: visited) fuel hwalkrest
        (List.Nodup.of_cons hnodup)
        (fun hmem => htgt (List.mem_cons_of_mem _ hmem))
      · intro x hx
        intro hmem
        rcases List.mem_cons.mp hmem with he | hv
        · subst he
          exact (List.nodup_cons.mp hnodup).1 hx
        · exact havoid x (List.mem_cons_of_mem _ hx) hv
      · have hck : current ∈ keysOf allResources := lookupKey_mem_keys hl
        have hcv : current ∉ visited := havoid current (List.mem_cons_self _ _)
        have := unvisitedCount_cons_lt hck hcv
        omega

/-! ## Extracting simple walks -/

lemma parentWalk_take {allResources : List (String × ResourceConfig)} :
    ∀ (l1 : List String) (a x b : String) (l2 : List String),
    parentWalk allResources a (l1 ++ x :: l2) b →
    parentWalk allResources a l1 x := by
  intro l1
  induction l1 with
  | nil =>
    intro a x b l2 h
    exact h.1
  | cons y t ih =>
    intro a x b l2 h
    exact ⟨h.1, ih y x b l2 h.2⟩

lemma parentWalk_drop {allResources : List (String × ResourceConfig)} :
    ∀ (l1 : List String) (a x b : String) (l2 : List String),
    parentWalk allResources a (l1 ++ x :: l2) b →
    parentWalk allResources x l2 b := by
  intro l1
  induction l1 with
  | nil =>
    intro a x b l2 h
    exact h.2
  | cons y t ih =>
    intro a x b l2 h
    exact ih y x b l2 h.2

lemma parentWalk_join {allResources : List (String × ResourceConfig)} :
    ∀ (l1 : List String) (a x b : String) (l2 : List String),
    parentWalk allResources a l1 x → parentWalk allResources x l2 b →
    parentWalk allResources a (l1 ++ x :: l2) b := by
  intro l1
  induction l1 with
  | nil =>
    intro a x b l2 h1 h2
    exact ⟨h1, h2⟩
  | cons y t ih =>
    intro a x b l2 h1 h2
    exact ⟨h1.1, ih y x b l2 h1.2 h2⟩

lemma exists_dup_split {α : Type _} [DecidableEq α] :
    ∀ (l : List α), ¬ l.Nodup →
    ∃ (l1 : List α) (x : α) (l2 l3 : List α), l = l1 ++ x :: l2 ++ x :: l3 := by
  intro l
  induction l with
  | nil => intro h; exact absurd List.nodup_nil h
  | cons a t ih =>
    intro h
    by_cases ha : a ∈ t
    · obtain ⟨s, u, rfl⟩ := List.append_of_mem ha
      exact ⟨[], a, s, u, rfl⟩
    · have ht : ¬ t.Nodup := by
        intro hnd
        exact h (List.nodup_cons.mpr ⟨ha, hnd⟩)
      obtain ⟨l1, x, l2, l3, rfl⟩ := ih ht
      exact ⟨a :: l1, x, l2, l3, rfl⟩

/-- Every walk from `a` to `b` with `a ≠ b` contains a simple walk:
repetition-free and avoiding `b` until the end. -/
lemma parentWalk_prune {allResources : List (String × ResourceConfig)}
    {a b : String} (hab : a ≠ b) :
    ∀ (n : Nat) (l : List String), l.length ≤ n →
    parentWalk allResources a l b →
    ∃ l', parentWalk allResources a l' b ∧ (a :: l').Nodup ∧ b ∉ a :: l' := by
  intro n
  induction n with
  | zero =>
    intro l hlen hwalk
    have : l = [] := List.length_eq_zero.mp (Nat.le_zero.mp hlen)
    subst this
    refine ⟨[], hwalk, List.nodup_cons.mpr ⟨List.not_mem_nil a, List.nodup_nil⟩, ?_⟩
    intro hmem
    rcases List.mem_cons.mp hmem with he | he
    · exact hab he.symm
    · exact List.not_mem_nil b he
  | succ n ih =>
    intro l hlen hwalk
    by_cases hb : b ∈ l
    · obtain ⟨l1, l2, rfl⟩ := List.append_of_mem hb
      have hw1 : parentWalk allResources a l1 b := parentWalk_take l1 a b b l2 hwalk
      apply ih l1 ?_ hw1
      simp [List.length_append] at hlen
      omega
    · by_cases ha : a ∈ l
      · obtain ⟨l1, l2, rfl⟩ := List.append_of_mem ha
        have hw2 : parentWalk allResources a l2 b := parentWalk_drop l1 a a b l2 hwalk
        apply ih l2 ?_ hw2
        simp [List.length_append] at hlen
        omega
      · by_cases hnd : l.Nodup
        · refine ⟨l, hwalk, List.nodup_cons.mpr ⟨ha, hnd⟩, ?_⟩
          intro hmem
          rcases List.mem_cons.mp hmem with he | he
          · exact hab he.symm
          · exact hb he
        · obtain ⟨l1, x, l2, l3, rfl⟩ := exists_dup_split l hnd
          rw [show l1 ++ x :: l2 ++ x :: l3 = l1 ++ x :: (l2 ++ x :: l3) from by
            simp] at hwalk
          have hw1 : parentWalk allResources a l1 x :=
            parentWalk_take l1 a x b (l2 ++ x :: l3) hwalk
          have hw2 : parentWalk allResources x l3 b := by
            have hmid : parentWalk allResources x (l2 ++ x :: l3) b :=
              parentWalk_drop l1 a x b (l2 ++ x :: l3) hwalk
            exact parentWalk_drop l2 x x b l3 hmid
          have hw3 : parentWalk allResources a (l1 ++ x :: l3) b :=
            parentWalk_join l1 a x b l3 hw1 hw2
          apply ih (l1 ++ x :: l3) ?_ hw3
          simp [List.length_append] at hlen
          simp [List.length_append]
          omega

lemma reach_walk {allResources : List (String × ResourceConfig)}
    {a b : String} (h : Reach allResources a b) :
    a = b ∨ ∃ l, parentWalk allResources a l b := by
  induction h with
  | refl a => exact Or.inl rfl
  | head hedge _ ih =>
    rcases ih with he | ⟨l, hw⟩
    · subst he
      exact Or.inr ⟨[], hedge⟩
    · exact Or.inr ⟨_ :: l, hedge, hw⟩

/-- Completeness of `hasCircularDependency` at the call sites of
`validateResource`: if `target` is reachable from `current` and `target`
itself has a `parents` entry for `current` (the edge whose check triggered
the call), the check answers `true`. -/
lemma hasCircularDependency_complete
    {allResources : List (String × ResourceConfig)}
    {current target : String} {rc : ResourceConfig}
    (hl : lookupKey target allResources = some rc)
    (hedge : current ∈ keysOf rc.Parents)
    (hreach : Reach allResources current target) :
    hasCircularDependency current target allResources [] = true := by
  rcases reach_walk hreach with he | ⟨l, hw⟩
  · subst he
    rw [hasCircularDependency]
    rw [if_neg (List.not_mem_nil current), hl]
    apply List.any_eq_true.mpr
    obtain ⟨p, hp, hfst⟩ := List.mem_map.mp hedge
    exact ⟨p, hp, by simp [hfst]⟩
  · by_cases hct : current = target
    · subst hct
      rw [hasCircularDependency]
      rw [if_neg (List.not_mem_nil current), hl]
      apply List.any_eq_true.mpr
      obtain ⟨p, hp, hfst⟩ := List.mem_map.mp hedge
      exact ⟨p, hp, by simp [hfst]⟩
    · obtain ⟨l', hw', hnd, hnb⟩ := parentWalk_prune hct l.length l le_rfl hw
      rw [← hasCircFuel_agree (unvisitedCount allResources [] + 1) current target
        allResources [] (Nat.lt_succ_self _)]
      exact hasCircFuel_complete allResources target l' current [] _
        hw' hnd hnb (fun x _ => List.not_mem_nil x) (Nat.lt_succ_self _)

/-- Soundness of `hasCircularDependency`: `true` implies reachability. -/
lemma hasCircularDependency_sound
    {allResources : List (String × ResourceConfig)}
    {current target : String} {visited : List String}
    (h : hasCircularDependency current target allResources visited = true) :
    Reach allResources current target := by
  rw [← hasCircFuel_agree (unvisitedCount allResources visited + 1) current target
    allResources visited (Nat.lt_succ_self _)] at h
  exact hasCircFuel_sound _ current target allResources visited h

/-! ## Plumbing: membership in the accumulated error list -/

lemma ValidateConfig_Errors (config : BlimuConfig) :
    (ValidateConfig config).Errors =
      resourcesErrors config ++ entitlementsErrors config ++
        featuresErrors config ++ plansErrors config ++ sdkErrors config := rfl

lemma mem_errors_of_resource {config : BlimuConfig} {n : String}
    {rc : ResourceConfig} {e : ValidationError}
    (hmem : (n, rc) ∈ config.Resources.getD [])
    (he : e ∈ validateResource n rc (config.Resources.getD [])) :
    e ∈ (ValidateConfig config).Errors := by
  rw [ValidateConfig_Errors]
  have : e ∈ resourcesErrors config :=
    List.mem_bind.mpr ⟨(n, rc), hmem, he⟩
  simp [List.mem_append, this]

lemma mem_errors_of_entitlement {config : BlimuConfig} {n : String}
    {ent : EntitlementConfig} {e : ValidationError}
    (hmem : (n, ent) ∈ config.Entitlements.getD [])
    (he : e ∈ validateEntitlement n ent config) :
    e ∈ (ValidateConfig config).Errors := by
  rw [ValidateConfig_Errors]
  have : e ∈ entitlementsErrors config :=
    List.mem_bind.mpr ⟨(n, ent), hmem, he⟩
  simp [List.mem_append, this]

/-! ## Claim C1: cycles through a parent entry are always reported -/

/-- **C1.** For every configuration and resource `R` with a `parents`
entry naming `P`, if walking `parents` edges from `P` can reach `R`
(including the one-hop self-parent case and transitive cycles), then
`ValidateConfig` reports a `parents` error for `R` whose message names
`P`. The `Nodup` hypothesis states that resource keys are pairwise
distinct, which is guaranteed for a Go map. -/
theorem validateConfig_reports_parent_cycle (config : BlimuConfig)
    (R P : String) (rc : ResourceConfig) (pc : ParentConfig)
    (hl : lookupKey R (config.Resources.getD []) = some rc)
    (hp : (P, pc) ∈ rc.Parents)
    (hreach : Reach (config.Resources.getD []) P R) :
    ({ Resource := R, Field := "parents", Message := circularDepMsg P }
      : ValidationError) ∈ (ValidateConfig config).Errors := by
  have hkey : P ∈ keysOf rc.Parents := List.mem_map_of_mem Prod.fst hp
  have hcirc := hasCircularDependency_complete hl hkey hreach
  apply mem_errors_of_resource (lookupKey_mem_pair hl)
  unfold validateResource resourceParentsErrors
  apply List.mem_append_right
  apply List.mem_bind.mpr
  refine ⟨(P, pc), hp, ?_⟩
  apply List.mem_append_right
  rw [hcirc]
  simp

/-- Witness configuration for C1: a three-hop cycle `a -> b -> c -> a`. -/
def rcWitA : ResourceConfig := ⟨["admin"], [], [("b", ⟨true⟩)]⟩

/-- Resource `b` of the C1 witness. -/
def rcWitB : ResourceConfig := ⟨["admin"], [], [("c", ⟨true⟩)]⟩

/-- Resource `c` of the C1 witness. -/
def rcWitC : ResourceConfig := ⟨["admin"], [], [("a", ⟨true⟩)]⟩

/-- The resources of the C1 witness. -/
def resWit1 : List (String × ResourceConfig) :=
  [("a", rcWitA), ("b", rcWitB), ("c", rcWitC)]

/-- The configuration of the C1 witness. -/
def cfgWit1 : BlimuConfig := ⟨some resWit1, none, none, none, none⟩

theorem validateConfig_reports_parent_cycle_witness :
    lookupKey "a" (cfgWit1.Resources.getD []) = some rcWitA ∧
    ("b", (⟨true⟩ : ParentConfig)) ∈ rcWitA.Parents ∧
    Reach (cfgWit1.Resources.getD []) "b" "a" ∧
    ({ Resource := "a", Field := "parents", Message := circularDepMsg "b" }
      : ValidationError) ∈ (ValidateConfig cfgWit1).Errors := by
  have h1 : lookupKey "a" (cfgWit1.Resources.getD []) = some rcWitA := by decide
  have h2 : ("b", (⟨true⟩ : ParentConfig)) ∈ rcWitA.Parents := by decide
  have e1 : parentEdge (cfgWit1.Resources.getD []) "b" "c" :=
    ⟨rcWitB, by decide, by decide⟩
  have e2 : parentEdge (cfgWit1.Resources.getD []) "c" "a" :=
    ⟨rcWitC, by decide, by decide⟩
  have h3 : Reach (cfgWit1.Resources.getD []) "b" "a" :=
    Reach.head e1 (Reach.head e2 (Reach.refl "a"))
  exact ⟨h1, h2, h3,
    validateConfig_reports_parent_cycle cfgWit1 "a" "b" rcWitA ⟨true⟩ h1 h2 h3⟩

/-! ## Claim C3: total, collecting, Valid iff no errors -/

/-- **C3.** `ValidateConfig` always returns a `ValidationResult` value
(it is a total function of the embedded configuration); the errors of
every section are all collected into the returned list (no
short-circuiting on the first failure), and `Valid` is `true` iff the
returned error list is empty. -/
theorem validateConfig_valid_iff_no_errors (config : BlimuConfig) :
    ((ValidateConfig config).Valid = true ↔ (ValidateConfig config).Errors = []) ∧
    List.Sublist (resourcesErrors config) (ValidateConfig config).Errors ∧
    List.Sublist (entitlementsErrors config) (ValidateConfig config).Errors ∧
    List.Sublist (featuresErrors config) (ValidateConfig config).Errors ∧
    List.Sublist (plansErrors config) (ValidateConfig config).Errors ∧
    List.Sublist (sdkErrors config) (ValidateConfig config).Errors := by
  refine ⟨?_, ?_, ?_, ?_, ?_, ?_⟩
  · show (resourcesErrors config ++ entitlementsErrors config ++
      featuresErrors config ++ plansErrors config ++ sdkErrors config).isEmpty
        = true ↔ _
    simp [List.isEmpty_iff, ValidateConfig_Errors]
  · rw [ValidateConfig_Errors]
    exact ((((List.sublist_append_left _ _).trans
      (List.sublist_append_left _ _)).trans
      (List.sublist_append_left _ _)).trans
      (List.sublist_append_left _ _))
  · rw [ValidateConfig_Errors]
    exact (((List.sublist_append_right _ _).trans
      (List.sublist_append_left _ _)).trans
      (List.sublist_append_left _ _)).trans
      (List.sublist_append_left _ _)
  · rw [ValidateConfig_Errors]
    exact ((List.sublist_append_right _ _).trans
      (List.sublist_append_left _ _)).trans
      (List.sublist_append_left _ _)
  · rw [ValidateConfig_Errors]
    exact (List.sublist_append_right _ _).trans
      (List.sublist_append_left _ _)
  · rw [ValidateConfig_Errors]
    exact List.sublist_append_right _ _

/-! ## Claim C10: the cycle check terminates within a resource-count bound -/

/-- **C10.** The recursion of `hasCircularDependency` terminates on every
finite configuration, cyclic ones included: a fuel-bounded unfolding with
fuel one more than the number of resource entries (an upper bound on the
distinct resources not yet visited) already computes the same answer, so
the recursion depth is bounded by the number of distinct resources. -/
theorem hasCircularDependency_terminates (current target : String)
    (allResources : List (String × ResourceConfig)) (visited : List String) :
    hasCircFuel (allResources.length + 1) current target allResources visited =
      hasCircularDependency current target allResources visited := by
  apply hasCircFuel_agree
  have h1 : unvisitedCount allResources visited ≤ (keysOf allResources).length :=
    List.length_filter_le _ _
  have h2 : (keysOf allResources).length = allResources.length :=
    List.length_map _ _
  omega

/-! ## Shape of the errors each validator can emit -/

lemma validateResource_shapes {n : String} {rc : ResourceConfig}
    {all : List (String × ResourceConfig)} {e : ValidationError}
    (he : e ∈ validateResource n rc all) :
    e.Resource = n ∧
    ((e.Field = "roles" ∧ e.Message = rolesEmptyMsg) ∨
     (e.Field = "roles_inheritance" ∧
       ((∃ r, e.Message = roleNotInListMsg r) ∨
        ∃ t m, e.Message = invalidInheritanceMsg t m)) ∨
     (e.Field = "parents" ∧
       ((∃ p, e.Message = parentNotFoundMsg p) ∨
        ∃ p, e.Message = circularDepMsg p))) := by
  unfold validateResource resourceRolesErrors resourceInheritanceErrors resourceParentsErrors at he
  rcases List.mem_append.mp he with h | h
  · rcases List.mem_append.mp h with h | h
    · cases hc : rc.Roles.isEmpty
      · rw [hc] at h; simp at h
      · rw [hc] at h
        simp at h
        subst h
        exact ⟨rfl, Or.inl ⟨rfl, rfl⟩⟩
    · obtain ⟨ri, _, h⟩ := List.mem_bind.mp h
      rcases List.mem_append.mp h with h | h
      · cases hc : contains rc.Roles ri.1
        · rw [hc] at h
          simp at h
          subst h
          exact ⟨rfl, Or.inr (Or.inl ⟨rfl, Or.inl ⟨ri.1, rfl⟩⟩)⟩
        · rw [hc] at h; simp at h
      · obtain ⟨tok, _, h⟩ := List.mem_bind.mp h
        cases hv : validateInheritance tok all with
        | none => rw [hv] at h; simp at h
        | some m =>
          rw [hv] at h
          simp at h
          subst h
          exact ⟨rfl, Or.inr (Or.inl ⟨rfl, Or.inr ⟨tok, m, rfl⟩⟩)⟩
  · obtain ⟨p, _, h⟩ := List.mem_bind.mp h
    rcases List.mem_append.mp h with h | h
    · cases hc : (lookupKey p.1 all).isSome
      · rw [hc] at h
        simp at h
        subst h
        exact ⟨rfl, Or.inr (Or.inr ⟨rfl, Or.inl ⟨p.1, rfl⟩⟩)⟩
      · rw [hc] at h; simp at h
    · cases hc : hasCircularDependency p.1 n all []
      · rw [hc] at h; simp at h
      · rw [hc] at h
        simp at h
        subst h
        exact ⟨rfl, Or.inr (Or.inr ⟨rfl, Or.inr ⟨p.1, rfl⟩⟩)⟩

/-- Every error of `validateResource` is either visibly not a
circular-dependency error, or witnesses a `true` answer of the cycle
check on one of `rc`'s parent entries. -/
lemma validateResource_circ_cases {n : String} {rc : ResourceConfig}
    {all : List (String × ResourceConfig)} {e : ValidationError}
    (he : e ∈ validateResource n rc all) :
    (∀ P, e.Message ≠ circularDepMsg P) ∨
    ∃ p, p ∈ keysOf rc.Parents ∧
      hasCircularDependency p n all [] = true ∧
      e.Message = circularDepMsg p := by
  unfold validateResource resourceRolesErrors resourceInheritanceErrors resourceParentsErrors at he
  rcases List.mem_append.mp he with h | h
  · rcases List.mem_append.mp h with h | h
    · cases hc : rc.Roles.isEmpty
      · rw [hc] at h; simp at h
      · rw [hc] at h
        simp at h
        subst h
        left
        intro P
        show rolesEmptyMsg ≠ circularDepMsg P
        apply string_ne_of_take2
        rw [take2_circularDepMsg]
        decide
    · obtain ⟨ri, _, h⟩ := List.mem_bind.mp h
      rcases List.mem_append.mp h with h | h
      · cases hc : contains rc.Roles ri.1
        · rw [hc] at h
          simp at h
          subst h
          left
          intro P
          show roleNotInListMsg ri.1 ≠ circularDepMsg P
          apply string_ne_of_take2
          rw [take2_roleNotInListMsg, take2_circularDepMsg]
          decide
        · rw [hc] at h; simp at h
      · obtain ⟨tok, _, h⟩ := List.mem_bind.mp h
        cases hv : validateInheritance tok all with
        | none => rw [hv] at h; simp at h
        | some m =>
          rw [hv] at h
          simp at h
          subst h
          left
          intro P
          show invalidInheritanceMsg tok m ≠ circularDepMsg P
          apply string_ne_of_take2
          rw [take2_invalidInheritanceMsg, take2_circularDepMsg]
          decide
  · obtain ⟨p, hp, h⟩ := List.mem_bind.mp h
    rcases List.mem_append.mp h with h | h
    · cases hc : (lookupKey p.1 all).isSome
      · rw [hc] at h
        simp at h
        subst h
        left
        intro P
        show parentNotFoundMsg p.1 ≠ circularDepMsg P
        apply string_ne_of_take2
        rw [take2_parentNotFoundMsg, take2_circularDepMsg]
        decide
      · rw [hc] at h; simp at h
    · cases hc : hasCircularDependency p.1 n all []
      · rw [hc] at h; simp at h
      · rw [hc] at h
        simp at h
        subst h
        exact Or.inr ⟨p.1, List.mem_map_of_mem Prod.fst hp, hc, rfl⟩

lemma validateEntitlement_shapes {n : String} {ent : EntitlementConfig}
    {config : BlimuConfig} {e : ValidationError}
    (he : e ∈ validateEntitlement n ent config) :
    e.Resource = "entitlements" ∧ e.Field = n ∧
    (e.Message = entitlementFormatMsg ∨
     (∃ r, e.Message = entResourceNotFoundMsg r) ∨
     (∃ r rn, e.Message = entRoleNotFoundMsg r rn) ∨
     (∃ p, e.Message = planNotFoundMsg p)) := by
  unfold validateEntitlement at he
  cases hsplit : goSplit ':' n with
  | nil => rw [hsplit] at he; simp at he; subst he; exact ⟨rfl, rfl, Or.inl rfl⟩
  | cons a rest =>
    cases rest with
    | nil =>
      rw [hsplit] at he; simp at he; subst he; exact ⟨rfl, rfl, Or.inl rfl⟩
    | cons b rest2 =>
      cases rest2 with
      | cons c rest3 =>
        rw [hsplit] at he; simp at he; subst he; exact ⟨rfl, rfl, Or.inl rfl⟩
      | nil =>
        rw [hsplit] at he
        rcases List.mem_append.mp he with h | h
        · rcases List.mem_append.mp h with h | h
          · cases hl : lookupKey a (config.Resources.getD []) with
            | none =>
              rw [hl] at h
              simp at h
              subst h
              exact ⟨rfl, rfl, Or.inr (Or.inl ⟨a, rfl⟩)⟩
            | some rc => rw [hl] at h; simp at h
          · cases hl : lookupKey a (config.Resources.getD []) with
            | none => rw [hl] at h; simp at h
            | some rc =>
              rw [hl] at h
              obtain ⟨role, _, h⟩ := List.mem_bind.mp h
              cases hc : contains rc.Roles role
              · rw [hc] at h
                simp at h
                subst h
                exact ⟨rfl, rfl, Or.inr (Or.inr (Or.inl ⟨role, a, rfl⟩))⟩
              · rw [hc] at h; simp at h
        · obtain ⟨plan, _, h⟩ := List.mem_bind.mp h
          cases hc : (lookupKey plan (config.Plans.getD [])).isSome
          · rw [hc] at h
            simp at h
            subst h
            exact ⟨rfl, rfl, Or.inr (Or.inr (Or.inr ⟨plan, rfl⟩))⟩
          · rw [hc] at h; simp at h

lemma validateFeature_shapes {n : String} {f : FeatureConfig}
    {config : BlimuConfig} {e : ValidationError}
    (he : e ∈ validateFeature n f config) :
    e.Resource = "features" ∧ e.Field = n ∧
    ((∃ p, e.Message = planNotFoundMsg p) ∨
     (∃ en, e.Message = entitlementNotFoundMsg en)) := by
  unfold validateFeature at he
  rcases List.mem_append.mp he with h | h
  · obtain ⟨plan, _, h⟩ := List.mem_bind.mp h
    cases hc : (lookupKey plan (config.Plans.getD [])).isSome
    · rw [hc] at h
      simp at h
      subst h
      exact ⟨rfl, rfl, Or.inl ⟨plan, rfl⟩⟩
    · rw [hc] at h; simp at h
  · obtain ⟨ent, _, h⟩ := List.mem_bind.mp h
    cases hc : (lookupKey ent (config.Entitlements.getD [])).isSome
    · rw [hc] at h
      simp at h
      subst h
      exact ⟨rfl, rfl, Or.inr ⟨ent, rfl⟩⟩
    · rw [hc] at h; simp at h

lemma validatePlan_shapes {n : String} {p : PlanConfig} {e : ValidationError}
    (he : e ∈ validatePlan n p) :
    e.Resource = "plans" ∧ e.Field = n ∧
    (e.Message = "plan must have a name" ∨
     e.Message = "plan must have a description") := by
  unfold validatePlan at he
  rcases List.mem_append.mp he with h | h
  · by_cases hc : goTrimSpace p.Name = ""
    · rw [if_pos hc] at h
      simp at h
      subst h
      exact ⟨rfl, rfl, Or.inl rfl⟩
    · rw [if_neg hc] at h; simp at h
  · by_cases hc : goTrimSpace p.Description = ""
    · rw [if_pos hc] at h
      simp at h
      subst h
      exact ⟨rfl, rfl, Or.inr rfl⟩
    · rw [if_neg hc] at h; simp at h

lemma validateSDKClient_shapes {i : Nat} {c : SDKClient} {e : ValidationError}
    (he : e ∈ validateSDKClient i c) :
    e.Resource = "config" ∧
    (∃ suffix, e.Field = clientFieldName i ++ suffix) ∧
    (e.Message = "client type is required" ∨
     (∃ t, e.Message = unsupportedTypeMsg t) ∨
     e.Message = "output directory is required" ∨
     e.Message = "package name is required" ∨
     e.Message = "client name is required" ∨
     e.Message = "module name is required for Go clients") := by
  unfold validateSDKClient at he
  rcases List.mem_append.mp he with h | h
  · rcases List.mem_append.mp h with h | h
    · rcases List.mem_append.mp h with h | h
      · rcases List.mem_append.mp h with h | h
        · by_cases h1 : goTrimSpace c.ClientType = ""
          · rw [if_pos h1] at h
            simp at h
            subst h
            exact ⟨rfl, ⟨".type", rfl⟩, Or.inl rfl⟩
          · rw [if_neg h1] at h
            cases h2 : contains ["typescript", "go"] c.ClientType
            · rw [h2] at h
              simp at h
              subst h
              exact ⟨rfl, ⟨".type", rfl⟩, Or.inr (Or.inl ⟨c.ClientType, rfl⟩)⟩
            · rw [h2] at h; simp at h
        · by_cases h1 : goTrimSpace c.OutDir = ""
          · rw [if_pos h1] at h
            simp at h
            subst h
            exact ⟨rfl, ⟨".outDir", rfl⟩, Or.inr (Or.inr (Or.inl rfl))⟩
          · rw [if_neg h1] at h; simp at h
      · by_cases h1 : goTrimSpace c.PackageName = ""
        · rw [if_pos h1] at h
          simp at h
          subst h
          exact ⟨rfl, ⟨".packageName", rfl⟩, Or.inr (Or.inr (Or.inr (Or.inl rfl)))⟩
        · rw [if_neg h1] at h; simp at h
    · by_cases h1 : goTrimSpace c.Name = ""
      · rw [if_pos h1] at h
        simp at h
        subst h
        exact ⟨rfl, ⟨".name", rfl⟩,
          Or.inr (Or.inr (Or.inr (Or.inr (Or.inl rfl))))⟩
      · rw [if_neg h1] at h; simp at h
  · cases h1 : (c.ClientType = "go" && goTrimSpace c.ModuleName = "" : Bool)
    · rw [h1] at h; simp at h
    · rw [h1] at h
      simp at h
      subst h
      exact ⟨rfl, ⟨".moduleName", rfl⟩,
        Or.inr (Or.inr (Or.inr (Or.inr (Or.inr rfl))))⟩

lemma dupOutDirLoop_shapes : ∀ (clients : List SDKClient) (i : Nat)
    (outDirs : List (String × Nat)) {e : ValidationError},
    e ∈ dupOutDirLoop clients i outDirs →
    e.Resource = "config" ∧
    (∃ j, e.Field = clientFieldName j ++ ".outDir") ∧
    (∃ d k, e.Message = dupOutDirMsg d k) := by
  intro clients
  induction clients with
  | nil => intro i outDirs e he; simp [dupOutDirLoop] at he
  | cons c rest ih =>
    intro i outDirs e he
    unfold dupOutDirLoop at he
    by_cases hne : c.OutDir ≠ ""
    · rw [if_pos hne] at he
      cases hl : lookupKey c.OutDir outDirs with
      | some k =>
        rw [hl] at he
        rcases List.mem_cons.mp he with h | h
        · subst h
          exact ⟨rfl, ⟨i, rfl⟩, ⟨c.OutDir, k, rfl⟩⟩
        · exact ih (i + 1) outDirs h
      | none =>
        rw [hl] at he
        exact ih (i + 1) ((c.OutDir, i) :: outDirs) he
    · rw [if_neg hne] at he
      exact ih (i + 1) outDirs he

lemma validateSDKConfig_shapes {sdk : SDKConfig} {e : ValidationError}
    (he : e ∈ validateSDKConfig sdk) :
    e.Resource = "config" ∧
    (e.Message = "at least one client must be defined" ∨
     e.Message = "client type is required" ∨
     (∃ t, e.Message = unsupportedTypeMsg t) ∨
     e.Message = "output directory is required" ∨
     e.Message = "package name is required" ∨
     e.Message = "client name is required" ∨
     e.Message = "module name is required for Go clients" ∨
     (∃ d k, e.Message = dupOutDirMsg d k)) := by
  unfold validateSDKConfig at he
  by_cases hc : sdk.Clients.isEmpty = true
  · rw [if_pos hc] at he
    simp at he
    subst he
    exact ⟨rfl, Or.inl rfl⟩
  · rw [if_neg hc] at he
    rcases List.mem_append.mp he with h | h
    · unfold clientErrors at h
      obtain ⟨i, _, h⟩ := List.mem_bind.mp h
      cases hg : sdk.Clients.get? i with
      | none => rw [hg] at h; simp at h
      | some c =>
        rw [hg] at h
        obtain ⟨_, _, hmsg⟩ := validateSDKClient_shapes h
        refine ⟨(validateSDKClient_shapes h).1, ?_⟩
        rcases hmsg with h1 | h1 | h1 | h1 | h1 | h1
        · exact Or.inr (Or.inl h1)
        · exact Or.inr (Or.inr (Or.inl h1))
        · exact Or.inr (Or.inr (Or.inr (Or.inl h1)))
        · exact Or.inr (Or.inr (Or.inr (Or.inr (Or.inl h1))))
        · exact Or.inr (Or.inr (Or.inr (Or.inr (Or.inr (Or.inl h1)))))
        · exact Or.inr (Or.inr (Or.inr (Or.inr (Or.inr (Or.inr (Or.inl h1))))))
    · obtain ⟨_, _, hmsg⟩ := dupOutDirLoop_shapes sdk.Clients 0 [] h
      exact ⟨(dupOutDirLoop_shapes sdk.Clients 0 [] h).1,
        Or.inr (Or.inr (Or.inr (Or.inr (Or.inr (Or.inr (Or.inr hmsg))))))⟩

/-! ## Claim C4: acyclic configurations produce no cycle error -/

lemma ne_circ_of_take2 {m : String} (h : m.data.take 2 ≠ ['c', 'i']) :
    ∀ P, m ≠ circularDepMsg P := fun _ =>
  string_ne_of_take2 (by rw [take2_circularDepMsg]; exact h)

lemma lookupKey_of_mem_nodup {l : List (String × α)}
    (hnd : (keysOf l).Nodup) {k : String} {v : α} (hmem : (k, v) ∈ l) :
    lookupKey k l = some v := by
  induction l with
  | nil => cases hmem
  | cons p rest ih =>
    obtain ⟨k', v'⟩ := p
    rcases List.mem_cons.mp hmem with he | hm
    · obtain ⟨h1, h2⟩ := Prod.mk.injEq .. ▸ he
      subst h1; subst h2
      simp [lookupKey]
    · have hnd' : (k' :: keysOf rest).Nodup := hnd
      by_cases hk : k = k'
      · subst hk
        exfalso
        exact (List.nodup_cons.mp hnd').1 (List.mem_map_of_mem Prod.fst hm)
      · rw [show lookupKey k ((k', v') :: rest) = lookupKey k rest from by
          simp [lookupKey, hk]]
        exact ih (List.nodup_cons.mp hnd').2 hm

/-- A rank function decreasing along every `parents` edge certifies
acyclicity. -/
lemma acyclic_of_rank {allResources : List (String × ResourceConfig)}
    (rank : String → Nat)
    (h : ∀ a b, parentEdge allResources a b → rank b < rank a) :
    Acyclic allResources := by
  intro a l hwalk
  have hlt : ∀ (l : List String) (x y : String),
      parentWalk allResources x l y → rank y < rank x := by
    intro l
    induction l with
    | nil => intro x y he; exact h x y he
    | cons w t ih => intro x y hw; exact lt_trans (ih w y hw.2) (h x w hw.1)
  exact lt_irrefl _ (hlt l a a hwalk)

/-- **C4.** If the parents graph of a configuration is acyclic, then
`ValidateConfig` reports no circular-dependency error at all — in
particular diamond-shaped parent graphs, where a node is reachable along
two different paths, are not flagged, because the visited set of
`hasCircularDependency` is path-scoped. -/
theorem validateConfig_acyclic_no_cycle_error (config : BlimuConfig)
    (hnd : (keysOf (config.Resources.getD [])).Nodup)
    (hA : Acyclic (config.Resources.getD [])) :
    ∀ e ∈ (ValidateConfig config).Errors, ∀ P, e.Message ≠ circularDepMsg P := by
  intro e he P
  rw [ValidateConfig_Errors] at he
  simp only [List.mem_append] at he
  rcases he with ((((he | he) | he) | he) | he)
  · unfold resourcesErrors at he
    obtain ⟨⟨n, rc⟩, hmem, hein⟩ := List.mem_bind.mp he
    rcases validateResource_circ_cases hein with hne | ⟨p, hpk, hcirc, hmsg⟩
    · exact hne P
    · exfalso
      have hreach := hasCircularDependency_sound hcirc
      have hlk : lookupKey n (config.Resources.getD []) = some rc :=
        lookupKey_of_mem_nodup hnd hmem
      have hedge : parentEdge (config.Resources.getD []) n p := ⟨rc, hlk, hpk⟩
      rcases reach_walk hreach with hpn | ⟨l, hw⟩
      · subst hpn
        exact hA p [] hedge
      · exact hA n (p :: l) ⟨hedge, hw⟩
  · unfold entitlementsErrors at he
    obtain ⟨⟨n, ent⟩, _, hein⟩ := List.mem_bind.mp he
    obtain ⟨_, _, hmsg⟩ := validateEntitlement_shapes hein
    rcases hmsg with h | ⟨r, h⟩ | ⟨r, rn, h⟩ | ⟨p, h⟩ <;> rw [h]
    · exact ne_circ_of_take2 (by decide) P
    · exact ne_circ_of_take2 (by rw [take2_entResourceNotFoundMsg]; decide) P
    · exact ne_circ_of_take2 (by rw [take2_entRoleNotFoundMsg]; decide) P
    · exact ne_circ_of_take2 (by rw [take2_planNotFoundMsg]; decide) P
  · unfold featuresErrors at he
    obtain ⟨⟨n, f⟩, _, hein⟩ := List.mem_bind.mp he
    obtain ⟨_, _, hmsg⟩ := validateFeature_shapes hein
    rcases hmsg with ⟨p, h⟩ | ⟨en, h⟩ <;> rw [h]
    · exact ne_circ_of_take2 (by rw [take2_planNotFoundMsg]; decide) P
    · exact ne_circ_of_take2 (by rw [take2_entitlementNotFoundMsg]; decide) P
  · unfold plansErrors at he
    obtain ⟨⟨n, pl⟩, _, hein⟩ := List.mem_bind.mp he
    obtain ⟨_, _, hmsg⟩ := validatePlan_shapes hein
    rcases hmsg with h | h <;> rw [h]
    · exact ne_circ_of_take2 (by decide) P
    · exact ne_circ_of_take2 (by decide) P
  · unfold sdkErrors at he
    cases hs : config.SDKConfig with
    | none => rw [hs] at he; simp at he
    | some sdk =>
      rw [hs] at he
      obtain ⟨_, hmsg⟩ := validateSDKConfig_shapes he
      rcases hmsg with h | h | ⟨t, h⟩ | h | h | h | h | ⟨d, k, h⟩ <;> rw [h]
      · exact ne_circ_of_take2 (by decide) P
      · exact ne_circ_of_take2 (by decide) P
      · exact ne_circ_of_take2 (by rw [take2_unsupportedTypeMsg]; decide) P
      · exact ne_circ_of_take2 (by decide) P
      · exact ne_circ_of_take2 (by decide) P
      · exact ne_circ_of_take2 (by decide) P
      · exact ne_circ_of_take2 (by decide) P
      · exact ne_circ_of_take2 (by rw [take2_dupOutDirMsg]; decide) P

/-- The diamond-shaped (acyclic) witness for C4:
`a -> {b, c}`, `b -> d`, `c -> d`. -/
def rcDiaA : ResourceConfig := ⟨["r"], [], [("b", ⟨true⟩), ("c", ⟨false⟩)]⟩

/-- Resource `b` of the C4 witness. -/
def rcDiaB : ResourceConfig := ⟨["r"], [], [("d", ⟨true⟩)]⟩

/-- Resource `c` of the C4 witness. -/
def rcDiaC : ResourceConfig := ⟨["r"], [], [("d", ⟨true⟩)]⟩

/-- Resource `d` of the C4 witness. -/
def rcDiaD : ResourceConfig := ⟨["r"], [], []⟩

/-- The resources of the C4 witness. -/
def resDia : List (String × ResourceConfig) :=
  [("a", rcDiaA), ("b", rcDiaB), ("c", rcDiaC), ("d", rcDiaD)]

/-- The configuration of the C4 witness. -/
def cfgDia : BlimuConfig := ⟨some resDia, none, none, none, none⟩

/-- Rank function certifying that the diamond is acyclic. -/
def diaRank (s : String) : Nat :=
  if s = "a" then 3 else if s = "b" then 2 else if s = "c" then 2 else 1

lemma resDia_acyclic : Acyclic (cfgDia.Resources.getD []) := by
  apply acyclic_of_rank diaRank
  intro a b hedge
  obtain ⟨rc, hl, hb⟩ := hedge
  by_cases h1 : a = "a"
  · subst h1
    have hrc : rc = rcDiaA :=
      Option.some.inj (hl.symm.trans (by decide :
        lookupKey "a" (cfgDia.Resources.getD []) = some rcDiaA))
    subst hrc
    have hb' : b = "b" ∨ b = "c" := by
      simpa [rcDiaA, keysOf] using hb
    rcases hb' with rfl | rfl <;> decide
  · by_cases h2 : a = "b"
    · subst h2
      have hrc : rc = rcDiaB :=
        Option.some.inj (hl.symm.trans (by decide :
          lookupKey "b" (cfgDia.Resources.getD []) = some rcDiaB))
      subst hrc
      have hb' : b = "d" := by simpa [rcDiaB, keysOf] using hb
      subst hb'; decide
    · by_cases h3 : a = "c"
      · subst h3
        have hrc : rc = rcDiaC :=
          Option.some.inj (hl.symm.trans (by decide :
            lookupKey "c" (cfgDia.Resources.getD []) = some rcDiaC))
        subst hrc
        have hb' : b = "d" := by simpa [rcDiaC, keysOf] using hb
        subst hb'; decide
      · by_cases h4 : a = "d"
        · subst h4
          have hrc : rc = rcDiaD :=
            Option.some.inj (hl.symm.trans (by decide :
              lookupKey "d" (cfgDia.Resources.getD []) = some rcDiaD))
          subst hrc
          simp [rcDiaD, keysOf] at hb
        · exfalso
          have : lookupKey a (cfgDia.Resources.getD []) = none := by
            simp [cfgDia, resDia, lookupKey, h1, h2, h3, h4]
          rw [this] at hl
          cases hl

theorem validateConfig_acyclic_no_cycle_error_witness :
    (keysOf (cfgDia.Resources.getD [])).Nodup ∧
    Acyclic (cfgDia.Resources.getD []) ∧
    ∀ e ∈ (ValidateConfig cfgDia).Errors, ∀ P,
      e.Message ≠ circularDepMsg P := by
  have hnd : (keysOf (cfgDia.Resources.getD [])).Nodup := by decide
  exact ⟨hnd, resDia_acyclic,
    validateConfig_acyclic_no_cycle_error cfgDia hnd resDia_acyclic⟩

/-! ## Claim C5: empty roles produce exactly one roles error -/

lemma mem_resourceInheritanceErrors_field {n : String} {rc : ResourceConfig}
    {all : List (String × ResourceConfig)} {e : ValidationError}
    (he : e ∈ resourceInheritanceErrors n rc all) :
    e.Field = "roles_inheritance" := by
  unfold resourceInheritanceErrors at he
  obtain ⟨ri, _, h⟩ := List.mem_bind.mp he
  rcases List.mem_append.mp h with h | h
  · cases hc : contains rc.Roles ri.1
    · rw [hc] at h; simp at h; subst h; rfl
    · rw [hc] at h; simp at h
  · obtain ⟨tok, _, h⟩ := List.mem_bind.mp h
    cases hv : validateInheritance tok all with
    | none => rw [hv] at h; simp at h
    | some m => rw [hv] at h; simp at h; subst h; rfl

lemma mem_resourceParentsErrors_field {n : String} {rc : ResourceConfig}
    {all : List (String × ResourceConfig)} {e : ValidationError}
    (he : e ∈ resourceParentsErrors n rc all) :
    e.Field = "parents" := by
  unfold resourceParentsErrors at he
  obtain ⟨p, _, h⟩ := List.mem_bind.mp he
  rcases List.mem_append.mp h with h | h
  · cases hc : (lookupKey p.1 all).isSome
    · rw [hc] at h; simp at h; subst h; rfl
    · rw [hc] at h; simp at h
  · cases hc : hasCircularDependency p.1 n all []
    · rw [hc] at h; simp at h
    · rw [hc] at h; simp at h; subst h; rfl

lemma bind_cons_eq {α β : Type _} (a : α) (l : List α) (f : α → List β) :
    (a :: l).bind f = f a ++ l.bind f := rfl

lemma count_bind_zero {β : Type _} (l : List β)
    (f : β → List ValidationError) (target : ValidationError)
    (h : ∀ b ∈ l, List.count target (f b) = 0) :
    List.count target (l.bind f) = 0 := by
  induction l with
  | nil => simp
  | cons b rest ih =>
    rw [bind_cons_eq, List.count_append]
    rw [h b (List.mem_cons_self _ _), ih (fun q hq => h q (List.mem_cons_of_mem _ hq))]

lemma count_bind_one {β : Type _} (entries : List (String × β))
    (f : String × β → List ValidationError) (target : ValidationError)
    (R : String) (rc : β)
    (hnd : (keysOf entries).Nodup) (hmem : (R, rc) ∈ entries)
    (h1 : List.count target (f (R, rc)) = 1)
    (h0 : ∀ q ∈ entries, q.1 ≠ R → List.count target (f q) = 0) :
    List.count target (entries.bind f) = 1 := by
  induction entries with
  | nil => cases hmem
  | cons p rest ih =>
    have hnd' : (p.1 :: keysOf rest).Nodup := hnd
    rw [bind_cons_eq, List.count_append]
    rcases List.mem_cons.mp hmem with he | hm
    · subst he
      rw [h1]
      rw [count_bind_zero rest f target ?_]
      intro q hq
      apply h0 q (List.mem_cons_of_mem _ hq)
      intro hqR
      have hR : q.1 ∈ keysOf rest := List.mem_map_of_mem Prod.fst hq
      rw [hqR] at hR
      exact (List.nodup_cons.mp hnd').1 hR
    · have hp1 : p.1 ≠ R := by
        intro hpR
        have hR : R ∈ keysOf rest := List.mem_map_of_mem Prod.fst hm
        rw [← hpR] at hR
        exact (List.nodup_cons.mp hnd').1 hR
      rw [h0 p (List.mem_cons_self _ _) hp1]
      rw [ih (List.nodup_cons.mp hnd').2 hm
        (fun q hq => h0 q (List.mem_cons_of_mem _ hq))]

lemma ne_rolesEmpty_of_take2 {m : String} (h : m.data.take 2 ≠ ['a', 't']) :
    m ≠ rolesEmptyMsg :=
  string_ne_of_take2 (by
    intro hc
    apply h
    rw [hc]
    decide)

/-- An error whose message is the empty-roles message never comes from
the entitlements, features, plans or SDK sections. -/
lemma rolesError_not_in_other_sections (config : BlimuConfig)
    {e : ValidationError} (hmsg : e.Message = rolesEmptyMsg) :
    e ∉ entitlementsErrors config ∧ e ∉ featuresErrors config ∧
    e ∉ plansErrors config ∧ e ∉ sdkErrors config := by
  refine ⟨?_, ?_, ?_, ?_⟩
  · intro he
    unfold entitlementsErrors at he
    obtain ⟨⟨n, ent⟩, _, hein⟩ := List.mem_bind.mp he
    obtain ⟨_, _, hm⟩ := validateEntitlement_shapes hein
    rcases hm with h | ⟨r, h⟩ | ⟨r, rn, h⟩ | ⟨p, h⟩
    · exact absurd (hmsg.symm.trans h) (by decide)
    · exact ne_rolesEmpty_of_take2
        (by rw [take2_entResourceNotFoundMsg]; decide) (hmsg ▸ h).symm
    · exact ne_rolesEmpty_of_take2
        (by rw [take2_entRoleNotFoundMsg]; decide) (hmsg ▸ h).symm
    · exact ne_rolesEmpty_of_take2
        (by rw [take2_planNotFoundMsg]; decide) (hmsg ▸ h).symm
  · intro he
    unfold featuresErrors at he
    obtain ⟨⟨n, f⟩, _, hein⟩ := List.mem_bind.mp he
    obtain ⟨_, _, hm⟩ := validateFeature_shapes hein
    rcases hm with ⟨p, h⟩ | ⟨en, h⟩
    · exact ne_rolesEmpty_of_take2
        (by rw [take2_planNotFoundMsg]; decide) (hmsg ▸ h).symm
    · exact ne_rolesEmpty_of_take2
        (by rw [take2_entitlementNotFoundMsg]; decide) (hmsg ▸ h).symm
  · intro he
    unfold plansErrors at he
    obtain ⟨⟨n, pl⟩, _, hein⟩ := List.mem_bind.mp he
    obtain ⟨_, _, hm⟩ := validatePlan_shapes hein
    rcases hm with h | h
    · exact absurd (hmsg.symm.trans h) (by decide)
    · exact absurd (hmsg.symm.trans h) (by decide)
  · intro he
    unfold sdkErrors at he
    cases hs : config.SDKConfig with
    | none => rw [hs] at he; simp at he
    | some sdk =>
      rw [hs] at he
      obtain ⟨_, hm⟩ := validateSDKConfig_shapes he
      rcases hm with h | h | ⟨t, h⟩ | h | h | h | h | ⟨d, k, h⟩
      · exact absurd (hmsg.symm.trans h) (by decide)
      · exact absurd (hmsg.symm.trans h) (by decide)
      · exact ne_rolesEmpty_of_take2
          (by rw [take2_unsupportedTypeMsg]; decide) (hmsg ▸ h).symm
      · exact absurd (hmsg.symm.trans h) (by decide)
      · exact absurd (hmsg.symm.trans h) (by decide)
      · exact absurd (hmsg.symm.trans h) (by decide)
      · exact absurd (hmsg.symm.trans h) (by decide)
      · exact ne_rolesEmpty_of_take2
          (by rw [take2_dupOutDirMsg]; decide) (hmsg ▸ h).symm

/-- **C5 (amended).** A resource `R` with an empty roles list yields exactly
one error equal to `{R, "roles", "at least one role must be defined"}` in
the full result, whatever else the configuration contains. (The original
claim's addendum that no *other* rule ever emits a `field = "roles"` error
is refuted by `emptyRoles_roles_field_counterexample`; an entitlement, plan
or feature literally named `"roles"` reuses that field name, though never
with this message.) -/
theorem emptyRoles_exactly_one_error (config : BlimuConfig) (R : String)
    (rc : ResourceConfig)
    (hnd : (keysOf (config.Resources.getD [])).Nodup)
    (hl : lookupKey R (config.Resources.getD []) = some rc)
    (hroles : rc.Roles = []) :
    List.count ({ Resource := R, Field := "roles", Message := rolesEmptyMsg }
      : ValidationError) (ValidateConfig config).Errors = 1 := by
  rw [ValidateConfig_Errors]
  repeat rw [List.count_append]
  obtain ⟨hno1, hno2, hno3, hno4⟩ := rolesError_not_in_other_sections config
    (e := { Resource := R, Field := "roles", Message := rolesEmptyMsg }) rfl
  rw [List.count_eq_zero.mpr hno1, List.count_eq_zero.mpr hno2,
    List.count_eq_zero.mpr hno3, List.count_eq_zero.mpr hno4]
  have hres : List.count
      ({ Resource := R, Field := "roles", Message := rolesEmptyMsg }
        : ValidationError) (resourcesErrors config) = 1 := by
    unfold resourcesErrors
    apply count_bind_one _ _ _ R rc hnd (lookupKey_mem_pair hl)
    · show List.count _ (validateResource R rc (config.Resources.getD [])) = 1
      unfold validateResource
      rw [List.count_append, List.count_append]
      have h1 : List.count
          ({ Resource := R, Field := "roles", Message := rolesEmptyMsg }
            : ValidationError) (resourceRolesErrors R rc) = 1 := by
        unfold resourceRolesErrors
        rw [hroles]
        simp
      have h2 : List.count
          ({ Resource := R, Field := "roles", Message := rolesEmptyMsg }
            : ValidationError)
          (resourceInheritanceErrors R rc (config.Resources.getD [])) = 0 := by
        apply List.count_eq_zero.mpr
        intro he
        have := mem_resourceInheritanceErrors_field he
        simp at this
      have h3 : List.count
          ({ Resource := R, Field := "roles", Message := rolesEmptyMsg }
            : ValidationError)
          (resourceParentsErrors R rc (config.Resources.getD [])) = 0 := by
        apply List.count_eq_zero.mpr
        intro he
        have := mem_resourceParentsErrors_field he
        simp at this
      rw [h1, h2, h3]
    · intro q hq hqR
      apply List.count_eq_zero.mpr
      intro he
      have := (validateResource_shapes he).1
      simp at this
      exact hqR this.symm
  rw [hres]

/-- C5 witness configuration: a resource with no roles, next to an
entitlement confusingly named `"roles"`. -/
def cfgWit5 : BlimuConfig :=
  ⟨some [("org", ⟨[], [], []⟩)], some [("roles", ⟨[], []⟩)], none, none, none⟩

theorem emptyRoles_exactly_one_error_witness :
    (keysOf (cfgWit5.Resources.getD [])).Nodup ∧
    lookupKey "org" (cfgWit5.Resources.getD []) = some ⟨[], [], []⟩ ∧
    ([] : List String) = ([] : List String) ∧
    List.count ({ Resource := "org", Field := "roles", Message := rolesEmptyMsg } : ValidationError)
      (ValidateConfig cfgWit5).Errors = 1 := by
  have h1 : (keysOf (cfgWit5.Resources.getD [])).Nodup := by decide
  have h2 : lookupKey "org" (cfgWit5.Resources.getD []) = some ⟨[], [], []⟩ := by
    decide
  exact ⟨h1, h2, rfl,
    emptyRoles_exactly_one_error cfgWit5 "org" ⟨[], [], []⟩ h1 h2 rfl⟩

/-- Counterexample to the second half of C5 as stated: with no resources at
all, an entitlement named `"roles"` still produces an error whose field is
`"roles"` — so a rule other than the empty-roles check can emit a
`field = "roles"` error (with a different message). -/
def cfgCexC5 : BlimuConfig :=
  ⟨none, some [("roles", ⟨[], []⟩)], none, none, none⟩

theorem emptyRoles_roles_field_counterexample :
    ({ Resource := "entitlements", Field := "roles", Message := entitlementFormatMsg } : ValidationError)
      ∈ (ValidateConfig cfgCexC5).Errors ∧
    ("roles" : String) = "roles" ∧
    entitlementFormatMsg ≠ rolesEmptyMsg := by
  refine ⟨?_, rfl, by decide⟩
  decide

/-! ## Claim C2: entitlement name format errors -/

lemma ne_entFmt_of_take2 {m : String} (h : m.data.take 2 ≠ ['e', 'n']) :
    m ≠ entitlementFormatMsg :=
  string_ne_of_take2 (by
    intro hc
    apply h
    rw [hc]
    decide)

/-- In the two-component branch, `validateEntitlement` never emits the
format error. -/
lemma validateEntitlement_no_fmt_of_two {name : String}
    {ent : EntitlementConfig} {config : BlimuConfig} {a b : String}
    (hsp : goSplit ':' name = [a, b]) {e : ValidationError}
    (he : e ∈ validateEntitlement name ent config) :
    e.Message ≠ entitlementFormatMsg := by
  unfold validateEntitlement at he
  rw [hsp] at he
  rcases List.mem_append.mp he with h | h
  · rcases List.mem_append.mp h with h | h
    · cases hl : lookupKey a (config.Resources.getD []) with
      | none =>
        rw [hl] at h
        simp at h
        subst h
        exact ne_entFmt_of_take2 (by rw [take2_entResourceNotFoundMsg]; decide)
      | some rc => rw [hl] at h; simp at h
    · cases hl : lookupKey a (config.Resources.getD []) with
      | none => rw [hl] at h; simp at h
      | some rc =>
        rw [hl] at h
        obtain ⟨role, _, h⟩ := List.mem_bind.mp h
        cases hc : contains rc.Roles role
        · rw [hc] at h
          simp at h
          subst h
          exact ne_entFmt_of_take2 (by rw [take2_entRoleNotFoundMsg]; decide)
        · rw [hc] at h; simp at h
  · obtain ⟨plan, _, h⟩ := List.mem_bind.mp h
    cases hc : (lookupKey plan (config.Plans.getD [])).isSome
    · rw [hc] at h
      simp at h
      subst h
      exact ne_entFmt_of_take2 (by rw [take2_planNotFoundMsg]; decide)
    · rw [hc] at h; simp at h

/-- The format-error triple of entry `name` never comes from the
resources, features, plans or SDK sections. -/
lemma entFmtError_not_in_other_sections (config : BlimuConfig)
    {e : ValidationError} (hres : e.Resource = "entitlements")
    (hmsg : e.Message = entitlementFormatMsg) :
    e ∉ resourcesErrors config ∧ e ∉ featuresErrors config ∧
    e ∉ plansErrors config ∧ e ∉ sdkErrors config := by
  refine ⟨?_, ?_, ?_, ?_⟩
  · intro he
    unfold resourcesErrors at he
    obtain ⟨⟨n, rc⟩, _, hein⟩ := List.mem_bind.mp he
    obtain ⟨_, hshape⟩ := validateResource_shapes hein
    rcases hshape with ⟨_, h⟩ | ⟨_, ⟨r, h⟩ | ⟨t, m, h⟩⟩ | ⟨_, ⟨p, h⟩ | ⟨p, h⟩⟩
    · exact absurd (hmsg.symm.trans h) (by decide)
    · exact ne_entFmt_of_take2
        (by rw [take2_roleNotInListMsg]; decide) (hmsg ▸ h).symm
    · exact ne_entFmt_of_take2
        (by rw [take2_invalidInheritanceMsg]; decide) (hmsg ▸ h).symm
    · exact ne_entFmt_of_take2
        (by rw [take2_parentNotFoundMsg]; decide) (hmsg ▸ h).symm
    · exact ne_entFmt_of_take2
        (by rw [take2_circularDepMsg]; decide) (hmsg ▸ h).symm
  · intro he
    unfold featuresErrors at he
    obtain ⟨⟨n, f⟩, _, hein⟩ := List.mem_bind.mp he
    have := (validateFeature_shapes hein).1
    rw [hres] at this
    exact absurd this (by decide)
  · intro he
    unfold plansErrors at he
    obtain ⟨⟨n, pl⟩, _, hein⟩ := List.mem_bind.mp he
    have := (validatePlan_shapes hein).1
    rw [hres] at this
    exact absurd this (by decide)
  · intro he
    unfold sdkErrors at he
    cases hs : config.SDKConfig with
    | none => rw [hs] at he; simp at he
    | some sdk =>
      rw [hs] at he
      have := (validateSDKConfig_shapes he).1
      rw [hres] at this
      exact absurd this (by decide)

/-- **C2 (amended).** A malformed entitlement name — one that does not
split on `':'` into exactly two components — yields exactly the format
error for that entry (remaining checks skipped) and exactly one such
error in the whole result; conversely a name splitting into exactly two
components (empty components included, which is where the original claim
overstated the code: the Go check is `len(parts) != 2` and does not
require non-emptiness) never triggers the format error. -/
theorem entitlementFormat_error (config : BlimuConfig) (name : String)
    (ent : EntitlementConfig)
    (hnd : (keysOf (config.Entitlements.getD [])).Nodup)
    (hmem : (name, ent) ∈ config.Entitlements.getD []) :
    ((goSplit ':' name).length ≠ 2 →
      validateEntitlement name ent config =
        [{ Resource := "entitlements", Field := name, Message := entitlementFormatMsg }] ∧
      List.count ({ Resource := "entitlements", Field := name, Message := entitlementFormatMsg }
        : ValidationError) (ValidateConfig config).Errors = 1) ∧
    (∀ a b, goSplit ':' name = [a, b] →
      ({ Resource := "entitlements", Field := name, Message := entitlementFormatMsg }
        : ValidationError) ∉ (ValidateConfig config).Errors) := by
  constructor
  · intro hlen
    have hval : validateEntitlement name ent config =
        [{ Resource := "entitlements", Field := name,
           Message := entitlementFormatMsg }] := by
      unfold validateEntitlement
      cases hsp : goSplit ':' name with
      | nil => rfl
      | cons a rest =>
        cases rest with
        | nil => rfl
        | cons b rest2 =>
          cases rest2 with
          | nil => exact absurd (by rw [hsp]; rfl) hlen
          | cons c rest3 => rfl
    refine ⟨hval, ?_⟩
    rw [ValidateConfig_Errors]
    repeat rw [List.count_append]
    obtain ⟨hno1, hno2, hno3, hno4⟩ :=
      entFmtError_not_in_other_sections config
        (e := { Resource := "entitlements", Field := name,
                Message := entitlementFormatMsg }) rfl rfl
    rw [List.count_eq_zero.mpr hno1, List.count_eq_zero.mpr hno2,
      List.count_eq_zero.mpr hno3, List.count_eq_zero.mpr hno4]
    have hent : List.count
        ({ Resource := "entitlements", Field := name,
           Message := entitlementFormatMsg } : ValidationError)
        (entitlementsErrors config) = 1 := by
      unfold entitlementsErrors
      apply count_bind_one _ _ _ name ent hnd hmem
      · show List.count _ (validateEntitlement name ent config) = 1
        rw [hval]
        simp
      · intro q hq hqname
        apply List.count_eq_zero.mpr
        intro he
        have := (validateEntitlement_shapes he).2.1
        simp at this
        exact hqname this.symm
    rw [hent]
  · intro a b hsp he
    rw [ValidateConfig_Errors] at he
    simp only [List.mem_append] at he
    obtain ⟨hno1, hno2, hno3, hno4⟩ :=
      entFmtError_not_in_other_sections config
        (e := { Resource := "entitlements", Field := name,
                Message := entitlementFormatMsg }) rfl rfl
    rcases he with ((((he | he) | he) | he) | he)
    · exact hno1 he
    · unfold entitlementsErrors at he
      obtain ⟨⟨n', ent'⟩, _, hein⟩ := List.mem_bind.mp he
      by_cases hn : n' = name
      · subst hn
        exact validateEntitlement_no_fmt_of_two hsp hein rfl
      · have := (validateEntitlement_shapes hein).2.1
        simp at this
        exact hn this.symm
    · exact hno2 he
    · exact hno3 he
    · exact hno4 he

/-- C2 witness configuration: an entitlement without a colon. -/
def cfgWit2 : BlimuConfig :=
  ⟨none, some [("orgcreate", ⟨[], []⟩)], none, none, none⟩

theorem entitlementFormat_error_witness :
    (keysOf (cfgWit2.Entitlements.getD [])).Nodup ∧
    ("orgcreate", (⟨[], []⟩ : EntitlementConfig)) ∈ cfgWit2.Entitlements.getD [] ∧
    (goSplit ':' "orgcreate").length ≠ 2 ∧
    validateEntitlement "orgcreate" ⟨[], []⟩ cfgWit2 =
      [{ Resource := "entitlements", Field := "orgcreate", Message := entitlementFormatMsg }] ∧
    List.count ({ Resource := "entitlements", Field := "orgcreate", Message := entitlementFormatMsg }
      : ValidationError) (ValidateConfig cfgWit2).Errors = 1 := by
  have h1 : (keysOf (cfgWit2.Entitlements.getD [])).Nodup := by decide
  have h2 : ("orgcreate", (⟨[], []⟩ : EntitlementConfig)) ∈
      cfgWit2.Entitlements.getD [] := by decide
  have h3 : (goSplit ':' "orgcreate").length ≠ 2 := by decide
  have := (entitlementFormat_error cfgWit2 "orgcreate" ⟨[], []⟩ h1 h2).1 h3
  exact ⟨h1, h2, h3, this.1, this.2⟩

/-- Counterexample to C2 as stated: `":create"` does not split into two
*non-empty* components (the first is empty), yet the code emits no format
error for it — Go only checks `len(parts) != 2`. -/
def cfgCexC2 : BlimuConfig :=
  ⟨none, some [(":create", ⟨[], []⟩)], none, none, none⟩

theorem entitlementFormat_counterexample :
    goSplit ':' ":create" = ["", "create"] ∧
    ({ Resource := "entitlements", Field := ":create", Message := entitlementFormatMsg }
      : ValidationError) ∉ (ValidateConfig cfgCexC2).Errors := by
  constructor
  · decide
  · decide

/-! ## Claim C6: role-inheritance token checks -/

/-- A failed inheritance check on token `t` puts the wrapped error into
`validateResource`'s output. -/
lemma mem_validateResource_of_inheritance {name : String}
    {rc : ResourceConfig} {all : List (String × ResourceConfig)}
    {role : String} {toks : List String} {t m : String}
    (hri : (role, toks) ∈ rc.RolesInheritance) (ht : t ∈ toks)
    (hv : validateInheritance t all = some m) :
    ({ Resource := name, Field := "roles_inheritance", Message := invalidInheritanceMsg t m }
      : ValidationError) ∈ validateResource name rc all := by
  unfold validateResource
  apply List.mem_append_left
  apply List.mem_append_right
  unfold resourceInheritanceErrors
  apply List.mem_bind.mpr
  refine ⟨(role, toks), hri, ?_⟩
  apply List.mem_append_right
  apply List.mem_bind.mpr
  refine ⟨t, ht, ?_⟩
  rw [hv]
  simp

/-- **C6.** For an inheritance token `t` listed under a `rolesInheritance`
key: a token with exactly one `->` separator whose trimmed left side names
an existing resource and whose trimmed right side is one of that resource's
roles passes without error; a token that does not split into exactly two
parts yields the format error, reported on field `"roles_inheritance"`;
a well-formed token naming an absent resource yields the not-found error,
also reported on field `"roles_inheritance"`. -/
theorem inheritanceToken_checks (name : String) (rc : ResourceConfig)
    (all : List (String × ResourceConfig)) (role : String)
    (toks : List String) (t : String)
    (hri : (role, toks) ∈ rc.RolesInheritance) (ht : t ∈ toks) :
    (∀ l r rc', goSplitArrow t = [l, r] →
      lookupKey (goTrimSpace l) all = some rc' →
      contains rc'.Roles (goTrimSpace r) = true →
      validateInheritance t all = none) ∧
    ((goSplitArrow t).length ≠ 2 →
      validateInheritance t all = some inheritanceFormatMsg ∧
      ({ Resource := name, Field := "roles_inheritance", Message := invalidInheritanceMsg t inheritanceFormatMsg }
        : ValidationError) ∈ validateResource name rc all) ∧
    (∀ l r, goSplitArrow t = [l, r] →
      lookupKey (goTrimSpace l) all = none →
      validateInheritance t all = some (inhResourceNotFoundMsg (goTrimSpace l)) ∧
      ({ Resource := name, Field := "roles_inheritance", Message := invalidInheritanceMsg t (inhResourceNotFoundMsg (goTrimSpace l)) }
        : ValidationError) ∈ validateResource name rc all) := by
  refine ⟨?_, ?_, ?_⟩
  · intro l r rc' hsp hlk hcont
    unfold validateInheritance
    rw [hsp]
    simp only [hlk, hcont]
    rfl
  · intro hlen
    have hv : validateInheritance t all = some inheritanceFormatMsg := by
      unfold validateInheritance
      cases hsp : goSplitArrow t with
      | nil => rfl
      | cons a rest =>
        cases rest with
        | nil => rfl
        | cons b rest2 =>
          cases rest2 with
          | nil => exact absurd (by rw [hsp]; rfl) hlen
          | cons c rest3 => rfl
    exact ⟨hv, mem_validateResource_of_inheritance hri ht hv⟩
  · intro l r hsp hlk
    have hv : validateInheritance t all =
        some (inhResourceNotFoundMsg (goTrimSpace l)) := by
      unfold validateInheritance
      rw [hsp]
      simp only [hlk]
    exact ⟨hv, mem_validateResource_of_inheritance hri ht hv⟩

/-- The resources of the C6 witness. -/
def allWit6 : List (String × ResourceConfig) :=
  [("organization", ⟨["admin"], [], []⟩)]

/-- The resource under validation in the C6 witness: one good token, one
token without the arrow, one naming a missing resource. -/
def rcWit6 : ResourceConfig :=
  ⟨["member"],
   [("member", ["organization->admin", "organization-admin", "ghost->admin"])],
   []⟩

theorem inheritanceToken_checks_witness :
    ("member", ["organization->admin", "organization-admin", "ghost->admin"])
      ∈ rcWit6.RolesInheritance ∧
    validateInheritance "organization->admin" allWit6 = none ∧
    (validateInheritance "organization-admin" allWit6 = some inheritanceFormatMsg ∧
      ({ Resource := "team", Field := "roles_inheritance", Message := invalidInheritanceMsg "organization-admin" inheritanceFormatMsg }
        : ValidationError) ∈ validateResource "team" rcWit6 allWit6) ∧
    (validateInheritance "ghost->admin" allWit6 = some (inhResourceNotFoundMsg "ghost") ∧
      ({ Resource := "team", Field := "roles_inheritance", Message := invalidInheritanceMsg "ghost->admin" (inhResourceNotFoundMsg "ghost") }
        : ValidationError) ∈ validateResource "team" rcWit6 allWit6) := by
  have hri : ("member",
      ["organization->admin", "organization-admin", "ghost->admin"])
      ∈ rcWit6.RolesInheritance := by decide
  have hgood := (inheritanceToken_checks "team" rcWit6 allWit6 "member"
    ["organization->admin", "organization-admin", "ghost->admin"]
    "organization->admin" hri (by decide)).1
    "organization" "admin" ⟨["admin"], [], []⟩ (by decide) (by decide) (by decide)
  have hfmt := (inheritanceToken_checks "team" rcWit6 allWit6 "member"
    ["organization->admin", "organization-admin", "ghost->admin"]
    "organization-admin" hri (by decide)).2.1 (by decide)
  have hnf := (inheritanceToken_checks "team" rcWit6 allWit6 "member"
    ["organization->admin", "organization-admin", "ghost->admin"]
    "ghost->admin" hri (by decide)).2.2
    "ghost" "admin" (by decide) (by decide)
  have htrim : goTrimSpace "ghost" = "ghost" := by decide
  rw [htrim] at hnf
  exact ⟨hri, hgood, hfmt, hnf⟩

/-! ## Claim C9: duplicate output directories -/

lemma drop_cons_get {cs : List SDKClient} {start : Nat} {c : SDKClient}
    {rest : List SDKClient} (h : cs.drop start = c :: rest) :
    cs.get? start = some c ∧ cs.drop (start + 1) = rest := by
  constructor
  · have h0 : (cs.drop start).get? 0 = some c := by rw [h]; rfl
    rw [List.get?_drop] at h0
    simpa using h0
  · have : cs.drop (start + 1) = (cs.drop start).drop 1 := by
      rw [List.drop_drop]
    rw [this, h]
    rfl

/-- Completeness of the duplicate-outDir loop: any later duplicate of a
non-empty outDir is reported against the later index, citing an earlier
index holding the same outDir. -/
lemma dupOutDirLoop_reports (cs : List SDKClient) :
    ∀ (rest : List SDKClient) (start : Nat) (seen : List (String × Nat)),
    rest = cs.drop start →
    (∀ d k, lookupKey d seen = some k →
      k < start ∧ ∃ ck, cs.get? k = some ck ∧ ck.OutDir = d) →
    (∀ m cm, m < start → cs.get? m = some cm → cm.OutDir ≠ "" →
      (lookupKey cm.OutDir seen).isSome = true) →
    ∀ j cj, start ≤ j → cs.get? j = some cj → cj.OutDir ≠ "" →
    (∃ i ci, i < j ∧ cs.get? i = some ci ∧ ci.OutDir = cj.OutDir) →
    ∃ k ck, k < j ∧ cs.get? k = some ck ∧ ck.OutDir = cj.OutDir ∧
      ({ Resource := "config", Field := clientFieldName j ++ ".outDir", Message := dupOutDirMsg cj.OutDir k }
        : ValidationError) ∈ dupOutDirLoop rest start seen := by
  intro rest
  induction rest with
  | nil =>
    intro start seen hdrop _ _ j cj hsj hj _ _
    exfalso
    have hlen : cs.length ≤ start := by
      have := congrArg List.length hdrop
      simp [List.length_drop] at this
      omega
    have hjlen : j < cs.length := List.get?_eq_some.mp hj |>.1
    omega
  | cons c rest' ih =>
    intro start seen hdrop hinv1 hinv2 j cj hsj hj hjne hdup
    obtain ⟨hget, hdrop'⟩ := drop_cons_get hdrop.symm
    by_cases hstart : j = start
    · subst hstart
      have hc : c = cj := by
        rw [hget] at hj
        exact Option.some.inj hj
      subst hc
      obtain ⟨i, ci, hij, hi, hieq⟩ := hdup
      have hsome : (lookupKey ci.OutDir seen).isSome = true :=
        hinv2 i ci (by omega) hi (by rw [hieq]; exact hjne)
      obtain ⟨k, hk⟩ := Option.isSome_iff_exists.mp hsome
      obtain ⟨hklt, ck, hck, hckd⟩ := hinv1 ci.OutDir k hk
      refine ⟨k, ck, by omega, hck, by rw [hckd, hieq], ?_⟩
      unfold dupOutDirLoop
      rw [if_pos hjne]
      rw [show lookupKey c.OutDir seen = some k from by rw [← hieq]; exact hk]
      apply List.mem_cons_self
    · have hsj' : start + 1 ≤ j := by omega
      by_cases hcne : c.OutDir ≠ ""
      · cases hl : lookupKey c.OutDir seen with
        | some k =>
          have hrec := ih (start + 1) seen hdrop'.symm
            (fun d k' hk' => by
              obtain ⟨h1, h2⟩ := hinv1 d k' hk'
              exact ⟨by omega, h2⟩)
            (fun m cm hm hcm hcmne => by
              by_cases hms : m = start
              · subst hms
                rw [hget] at hcm
                rw [← Option.some.inj hcm, hl]
                rfl
              · exact hinv2 m cm (by omega) hcm hcmne)
            j cj hsj' hj hjne hdup
          obtain ⟨k', ck', h1, h2, h3, h4⟩ := hrec
          refine ⟨k', ck', h1, h2, h3, ?_⟩
          unfold dupOutDirLoop
          rw [if_pos hcne, hl]
          exact List.mem_cons_of_mem _ h4
        | none =>
          have hrec := ih (start + 1) ((c.OutDir, start) :: seen) hdrop'.symm
            (fun d k' hk' => by
              by_cases hdc : d = c.OutDir
              · have hs : lookupKey d ((c.OutDir, start) :: seen) = some start := by
                  rw [hdc]; simp [lookupKey]
                have hk2 : k' = start := (Option.some.inj (hs.symm.trans hk')).symm
                subst hk2
                exact ⟨by omega, c, hget, hdc.symm⟩
              · rw [show lookupKey d ((c.OutDir, start) :: seen) =
                    lookupKey d seen from by simp [lookupKey, hdc]] at hk'
                obtain ⟨h1, h2⟩ := hinv1 d k' hk'
                exact ⟨by omega, h2⟩)
            (fun m cm hm hcm hcmne => by
              by_cases hms : m = start
              · rw [hms] at hcm
                have hcmc : cm = c := Option.some.inj (hcm.symm.trans hget) |>.symm |>.symm
                rw [hcmc]
                rw [show lookupKey c.OutDir ((c.OutDir, start) :: seen) =
                    some start from by simp [lookupKey]]
                rfl
              · have := hinv2 m cm (by omega) hcm hcmne
                by_cases hdc : cm.OutDir = c.OutDir
                · rw [hdc]
                  rw [show lookupKey c.OutDir ((c.OutDir, start) :: seen) =
                      some start from by simp [lookupKey]]
                  rfl
                · rw [show lookupKey cm.OutDir ((c.OutDir, start) :: seen) =
                      lookupKey cm.OutDir seen from by simp [lookupKey, hdc]]
                  exact this)
            j cj hsj' hj hjne hdup
          obtain ⟨k', ck', h1, h2, h3, h4⟩ := hrec
          refine ⟨k', ck', h1, h2, h3, ?_⟩
          unfold dupOutDirLoop
          rw [if_pos hcne, hl]
          exact h4
      · push_neg at hcne
        have hrec := ih (start + 1) seen hdrop'.symm
          (fun d k' hk' => by
            obtain ⟨h1, h2⟩ := hinv1 d k' hk'
            exact ⟨by omega, h2⟩)
          (fun m cm hm hcm hcmne => by
            by_cases hms : m = start
            · subst hms
              rw [hget] at hcm
              rw [← Option.some.inj hcm] at hcmne
              exact absurd hcne hcmne
            · exact hinv2 m cm (by omega) hcm hcmne)
          j cj hsj' hj hjne hdup
        obtain ⟨k', ck', h1, h2, h3, h4⟩ := hrec
        refine ⟨k', ck', h1, h2, h3, ?_⟩
        unfold dupOutDirLoop
        rw [if_neg (by simpa using hcne)]
        exact h4

/-- If all outDir values are pairwise distinct, the duplicate loop emits
nothing. -/
lemma dupOutDirLoop_empty (cs : List SDKClient) :
    ∀ (rest : List SDKClient) (start : Nat) (seen : List (String × Nat)),
    rest = cs.drop start →
    (∀ d k, lookupKey d seen = some k →
      k < start ∧ ∃ ck, cs.get? k = some ck ∧ ck.OutDir = d) →
    (∀ i j ci cj, i < j → cs.get? i = some ci → cs.get? j = some cj →
      ci.OutDir ≠ cj.OutDir) →
    dupOutDirLoop rest start seen = [] := by
  intro rest
  induction rest with
  | nil => intro start seen _ _ _; rfl
  | cons c rest' ih =>
    intro start seen hdrop hinv1 hdist
    obtain ⟨hget, hdrop'⟩ := drop_cons_get hdrop.symm
    unfold dupOutDirLoop
    by_cases hcne : c.OutDir ≠ ""
    · rw [if_pos hcne]
      cases hl : lookupKey c.OutDir seen with
      | some k =>
        exfalso
        obtain ⟨hklt, ck, hck, hckd⟩ := hinv1 c.OutDir k hl
        exact hdist k start ck c hklt hck hget hckd
      | none =>
        apply ih (start + 1) ((c.OutDir, start) :: seen) hdrop'.symm ?_ hdist
        intro d k' hk'
        by_cases hdc : d = c.OutDir
        · have hs : lookupKey d ((c.OutDir, start) :: seen) = some start := by
            rw [hdc]; simp [lookupKey]
          have hk2 : k' = start := (Option.some.inj (hs.symm.trans hk')).symm
          subst hk2
          exact ⟨by omega, c, hget, hdc.symm⟩
        · rw [show lookupKey d ((c.OutDir, start) :: seen) =
              lookupKey d seen from by simp [lookupKey, hdc]] at hk'
          obtain ⟨h1, h2⟩ := hinv1 d k' hk'
          exact ⟨by omega, h2⟩
    · rw [if_neg (by simpa using (by push_neg at hcne; exact hcne : c.OutDir = ""))]
      apply ih (start + 1) seen hdrop'.symm ?_ hdist
      intro d k' hk'
      obtain ⟨h1, h2⟩ := hinv1 d k' hk'
      exact ⟨by omega, h2⟩

/-- **C9 (amended).** During SDK-options validation, for any two client
entries at indices `i < j` whose outDir values are equal *and non-empty*,
an error is reported against the later entry (field `clients[j].outDir`)
whose message cites an earlier index occupying that output directory;
and when all outDir values are pairwise distinct, the duplicate-check loop
produces no error. (Clients with an empty outDir are skipped by the
duplicate check — the empty-string case refutes the claim as stated, see
the counterexample.) -/
theorem dupOutDir_detection (sdk : SDKConfig) :
    (∀ i j ci cj, i < j →
      sdk.Clients.get? i = some ci → sdk.Clients.get? j = some cj →
      ci.OutDir = cj.OutDir → cj.OutDir ≠ "" →
      ∃ k ck, k < j ∧ sdk.Clients.get? k = some ck ∧
        ck.OutDir = cj.OutDir ∧
        ({ Resource := "config", Field := clientFieldName j ++ ".outDir", Message := dupOutDirMsg cj.OutDir k }
          : ValidationError) ∈ validateSDKConfig sdk) ∧
    ((∀ i j ci cj, i < j →
      sdk.Clients.get? i = some ci → sdk.Clients.get? j = some cj →
      ci.OutDir ≠ cj.OutDir) →
      dupOutDirErrors sdk.Clients = []) := by
  constructor
  · intro i j ci cj hij hi hj heq hne
    have hrep := dupOutDirLoop_reports sdk.Clients sdk.Clients 0 []
      (by simp) (fun d k hk => by simp [lookupKey] at hk)
      (fun m cm hm _ _ => by omega) j cj (Nat.zero_le j) hj hne
      ⟨i, ci, hij, hi, heq⟩
    obtain ⟨k, ck, h1, h2, h3, h4⟩ := hrep
    refine ⟨k, ck, h1, h2, h3, ?_⟩
    unfold validateSDKConfig
    have hnonempty : sdk.Clients.isEmpty = false := by
      have hjlen : j < sdk.Clients.length := List.get?_eq_some.mp hj |>.1
      cases hcl : sdk.Clients with
      | nil => rw [hcl] at hjlen; simp at hjlen
      | cons a b => rfl
    rw [hnonempty]
    show _ ∈ clientErrors sdk.Clients ++ dupOutDirErrors sdk.Clients
    exact List.mem_append_right _ h4
  · intro hdist
    exact dupOutDirLoop_empty sdk.Clients sdk.Clients 0 [] (by simp)
      (fun d k hk => by simp [lookupKey] at hk) hdist

/-- C9 witness: two clients sharing the non-empty outDir `"./x"`. -/
def sdkWit9 : SDKConfig :=
  ⟨"s", "",
   [⟨"go", "./x", "p", "m", "c0", [], [], false, "", ""⟩,
    ⟨"go", "./x", "p", "m", "c1", [], [], false, "", ""⟩]⟩

theorem dupOutDir_detection_witness :
    0 < 1 ∧
    sdkWit9.Clients.get? 0 = some ⟨"go", "./x", "p", "m", "c0", [], [], false, "", ""⟩ ∧
    sdkWit9.Clients.get? 1 = some ⟨"go", "./x", "p", "m", "c1", [], [], false, "", ""⟩ ∧
    (∃ k ck, k < 1 ∧ sdkWit9.Clients.get? k = some ck ∧
      ck.OutDir = "./x" ∧
      ({ Resource := "config", Field := clientFieldName 1 ++ ".outDir", Message := dupOutDirMsg "./x" k }
        : ValidationError) ∈ validateSDKConfig sdkWit9) := by
  refine ⟨by omega, by decide, by decide, ?_⟩
  exact (dupOutDir_detection sdkWit9).1 0 1
    ⟨"go", "./x", "p", "m", "c0", [], [], false, "", ""⟩
    ⟨"go", "./x", "p", "m", "c1", [], [], false, "", ""⟩
    (by omega) (by decide) (by decide) (by decide) (by decide)

/-- Counterexample to C9 as stated: two clients with equal (empty) outDir
values produce no duplicate-output-directory error — the Go loop skips
empty outDirs. -/
def sdkCex9 : SDKConfig :=
  ⟨"s", "",
   [⟨"go", "", "p", "m", "c0", [], [], false, "", ""⟩,
    ⟨"go", "", "p", "m", "c1", [], [], false, "", ""⟩]⟩

theorem dupOutDir_counterexample :
    (sdkCex9.Clients.get? 0).map SDKClient.OutDir = some "" ∧
    (sdkCex9.Clients.get? 1).map SDKClient.OutDir = some "" ∧
    dupOutDirErrors sdkCex9.Clients = [] ∧
    ({ Resource := "config", Field := clientFieldName 1 ++ ".outDir", Message := dupOutDirMsg "" 0 }
      : ValidationError) ∉ validateSDKConfig sdkCex9 := by
  refine ⟨by decide, by decide, by decide, by decide⟩

/-! ## Claim C7: MergeToJSON payload shape

The JSON value model. Go's `encoding/json` marshals a `nil` map as
`null` and a non-`nil` map as an object (key order abstracted here);
struct fields are emitted in declaration order, honouring the
`omitempty` options of the field tags. -/

/-- A JSON value. -/
inductive Json where
  | null : Json
  | str : String → Json
  | bool : Bool → Json
  | arr : List Json → Json
  | obj : List (String × Json) → Json

/-- A `[]string` marshals as an array of strings. -/
def encodeStringList (l : List String) : Json := Json.arr (l.map Json.str)

/-- `config.ParentConfig` marshalling (`required` field, no omitempty). -/
def encodeParentConfig (p : ParentConfig) : Json :=
  Json.obj [("required", Json.bool p.Required)]

/-- `config.ResourceConfig` marshalling (all three fields omitempty). -/
def encodeResourceConfig (rc : ResourceConfig) : Json :=
  Json.obj
    ((if rc.Roles.isEmpty then [] else [("roles", encodeStringList rc.Roles)])
     ++ (if rc.RolesInheritance.isEmpty then []
         else [("roles_inheritance",
           Json.obj (rc.RolesInheritance.map (fun ri => (ri.1, encodeStringList ri.2))))])
     ++ (if rc.Parents.isEmpty then []
         else [("parents",
           Json.obj (rc.Parents.map (fun p => (p.1, encodeParentConfig p.2))))]))

/-- `config.EntitlementConfig` marshalling. -/
def encodeEntitlementConfig (e : EntitlementConfig) : Json :=
  Json.obj
    ((if e.Roles.isEmpty then [] else [("roles", encodeStringList e.Roles)])
     ++ (if e.Plans.isEmpty then [] else [("plans", encodeStringList e.Plans)]))

/-- `config.FeatureConfig` marshalling (`default_enabled` omitempty:
a `false` bool is omitted). -/
def encodeFeatureConfig (f : FeatureConfig) : Json :=
  Json.obj
    ((if f.Plans.isEmpty then [] else [("plans", encodeStringList f.Plans)])
     ++ (if f.DefaultEnabled then [("default_enabled", Json.bool f.DefaultEnabled)]
         else [])
     ++ (if f.Entitlements.isEmpty then []
         else [("entitlements", encodeStringList f.Entitlements)]))

/-- `config.PlanConfig` marshalling (no omitempty). -/
def encodePlanConfig (p : PlanConfig) : Json :=
  Json.obj [("name", Json.str p.Name), ("description", Json.str p.Description)]

/-- Marshalling of a `map[string]T` field: `nil` maps marshal as `null`,
non-`nil` maps as objects. -/
def marshalSection (section_ : Option (List (String × α))) (enc : α → Json) :
    Json :=
  match section_ with
  | none => Json.null
  | some l => Json.obj (l.map (fun kv => (kv.1, enc kv.2)))

/-- `config.ConfigPayload`: the complete configuration payload sent to
the API. -/
structure ConfigPayload where
  Resources : Option (List (String × ResourceConfig))
  Entitlements : Option (List (String × EntitlementConfig))
  Features : Option (List (String × FeatureConfig))
  Plans : Option (List (String × PlanConfig))
  Version : String

/-- `config.MergeToJSON`: builds the payload with schema version `"1.0"`,
replaces `nil` sections by fresh empty maps, and marshals (indentation
abstracted; marshalling of these types cannot fail, so the Go error
return is always `nil`). -/
def MergeToJSON (config : BlimuConfig) : Json :=
  let payload : ConfigPayload :=
    ⟨config.Resources, config.Entitlements, config.Features, config.Plans, "1.0"⟩
  let payload := if payload.Resources = none then
    { payload with Resources := some [] } else payload
  let payload := if payload.Entitlements = none then
    { payload with Entitlements := some [] } else payload
  let payload := if payload.Features = none then
    { payload with Features := some [] } else payload
  let payload := if payload.Plans = none then
    { payload with Plans := some [] } else payload
  Json.obj
    [("resources", marshalSection payload.Resources encodeResourceConfig),
     ("entitlements", marshalSection payload.Entitlements encodeEntitlementConfig),
     ("features", marshalSection payload.Features encodeFeatureConfig),
     ("plans", marshalSection payload.Plans encodePlanConfig),
     ("version", Json.str payload.Version)]

/-- **C7.** For every configuration, `MergeToJSON` produces an object in
which the four sections are each present as a JSON object — an empty
object when the in-memory map is `nil`, never `null` and never omitted —
plus the fixed schema version string `"1.0"` under `version`. -/
theorem mergeToJSON_sections (config : BlimuConfig) :
    ∃ r e f p, MergeToJSON config =
      Json.obj
        [("resources", Json.obj r), ("entitlements", Json.obj e),
         ("features", Json.obj f), ("plans", Json.obj p),
         ("version", Json.str "1.0")] ∧
      (config.Resources = none → r = []) ∧
      (config.Entitlements = none → e = []) ∧
      (config.Features = none → f = []) ∧
      (config.Plans = none → p = []) := by
  obtain ⟨res, ents, feats, plans, sdk⟩ := config
  cases res <;> cases ents <;> cases feats <;> cases plans <;>
    refine ⟨_, _, _, _, rfl, ?_, ?_, ?_, ?_⟩ <;> intro h <;>
    first
    | rfl
    | cases h

theorem mergeToJSON_sections_witness :
    ∃ r e f p, MergeToJSON ⟨none, none, none, none, none⟩ =
      Json.obj
        [("resources", Json.obj r), ("entitlements", Json.obj e),
         ("features", Json.obj f), ("plans", Json.obj p),
         ("version", Json.str "1.0")] ∧
      ((none : Option (List (String × ResourceConfig))) = none → r = []) ∧
      ((none : Option (List (String × EntitlementConfig))) = none → e = []) ∧
      ((none : Option (List (String × FeatureConfig))) = none → f = []) ∧
      ((none : Option (List (String × PlanConfig))) = none → p = []) :=
  mergeToJSON_sections ⟨none, none, none, none, none⟩

/-! ## Claim C8: MergeOpenAPISpecs does not touch the base top-level map

Go's `map[string]interface{}` values are modelled with an explicit heap of
map objects, so that in-place mutation of nested maps is observable:
`GoVal.vmap a` is a reference to the map object at heap address `a`.
Slices are modelled as immutable value lists (the merge never mutates a
slice in place; it only rebinds `mergedSpec["tags"]`). -/

/-- A dynamic Go value (`interface{}`). -/
inductive GoVal where
  | vmap : Nat → GoVal
  | varr : List GoVal → GoVal
  | vstr : String → GoVal
  | vother : Nat → GoVal

/-- The heap: address `a` holds the map object (list of bindings) at
index `a`. -/
abbrev Heap : Type := List (List (String × GoVal))

/-- Read the map object at address `a` (empty for a dangling address). -/
def getObj (h : Heap) (a : Nat) : List (String × GoVal) :=
  ((h : List _).get? a).getD []

/-- Go map assignment `o[k] = v`: replace the binding of `k` or append it. -/
def objSet (o : List (String × GoVal)) (k : String) (v : GoVal) :
    List (String × GoVal) :=
  match o with
  | [] => [(k, v)]
  | (k', v') :: rest => if k = k' then (k, v) :: rest else (k', v') :: objSet rest k v

/-- Heap write `(*a)[k] = v`. -/
def writeKey (h : Heap) (a : Nat) (k : String) (v : GoVal) : Heap :=
  (h : List _).set a (objSet (getObj h a) k v)

/-- Go type assertion `v.(map[string]interface{})`. -/
def asMap : GoVal → Option Nat
  | GoVal.vmap a => some a
  | _ => none

/-- Go type assertion `v.([]interface{})`. -/
def asArr : GoVal → Option (List GoVal)
  | GoVal.varr l => some l
  | _ => none

/-- Go type assertion `v.(string)`. -/
def asStr : GoVal → Option String
  | GoVal.vstr s => some s
  | _ => none

/-- The paths merge of `MergeOpenAPISpecs`: custom paths overwrite or add
to the base paths object in place; if the base has no paths map, the
custom paths map is bound into the merged top-level map. -/
def mergePaths (h : Heap) (merged custom : Nat) : Heap :=
  match (lookupKey "paths" (getObj h custom)).bind asMap with
  | some cp =>
    match (lookupKey "paths" (getObj h merged)).bind asMap with
    | some bp => (getObj h cp).foldl (fun hh kv => writeKey hh bp kv.1 kv.2) h
    | none => writeKey h merged "paths" (GoVal.vmap cp)
  | none => h

/-- One iteration of the component-type loop of `MergeOpenAPISpecs`. -/
def mergeComponentType (bc : Nat) (h : Heap) (kv : String × GoVal) : Heap :=
  match asMap kv.2 with
  | some cs =>
    match (lookupKey kv.1 (getObj h bc)).bind asMap with
    | some bs => (getObj h cs).foldl (fun hh kv2 => writeKey hh bs kv2.1 kv2.2) h
    | none => writeKey h bc kv.1 (GoVal.vmap cs)
  | none => h

/-- The components merge of `MergeOpenAPISpecs`. -/
def mergeComponents (h : Heap) (merged custom : Nat) : Heap :=
  match (lookupKey "components" (getObj h custom)).bind asMap with
  | some cc =>
    match (lookupKey "components" (getObj h merged)).bind asMap with
    | some bc => (getObj h cc).foldl (mergeComponentType bc) h
    | none => writeKey h merged "components" (GoVal.vmap cc)
  | none => h

/-- The name of a tag entry (`tag.(map[string]interface{})` then
`tagMap["name"].(string)`). -/
def tagName (h : Heap) (tag : GoVal) : Option String :=
  match asMap tag with
  | some tm => (lookupKey "name" (getObj h tm)).bind asStr
  | none => none

/-- The tags merge of `MergeOpenAPISpecs`: base tags first, custom tags
appended when their name is not already present; the resulting slice is
bound into the merged top-level map. -/
def mergeTags (h : Heap) (merged custom : Nat) : Heap :=
  match (lookupKey "tags" (getObj h custom)).bind asArr with
  | some ct =>
    match (lookupKey "tags" (getObj h merged)).bind asArr with
    | some bt =>
      let existingTags := bt.filterMap (tagName h)
      let newTags := bt ++ ct.filter (fun tag =>
        match tagName h tag with
        | some nm => !(existingTags.contains nm)
        | none => false)
      writeKey h merged "tags" (GoVal.varr newTags)
    | none => writeKey h merged "tags" (GoVal.varr ct)
  | none => h

/-- `config.MergeOpenAPISpecs`: shallow-copies the base top-level map into
a fresh object, then merges paths, components and tags (the Go error
return is always `nil`, so only the resulting map is modelled). -/
def mergeOpenAPISpecs (h : Heap) (baseSpec customSpec : Nat) : Nat × Heap :=
  let mergedSpec := (h : List _).length
  let h1 : Heap := (h : List _) ++ [getObj h baseSpec]
  let h2 := mergePaths h1 mergedSpec customSpec
  let h3 := mergeComponents h2 mergedSpec customSpec
  let h4 := mergeTags h3 mergedSpec customSpec
  (mergedSpec, h4)

/-- Does a value reference the map object at address `b`? -/
def refsBase (b : Nat) : GoVal → Bool
  | GoVal.vmap a => a == b
  | _ => false

/-- No map object of the heap holds a reference to address `b`: address
`b` is a root (a top-level specification), not nested inside anything. -/
def SafeHeap (b : Nat) (h : Heap) : Prop :=
  ∀ o ∈ (h : List (List (String × GoVal))), ∀ kv ∈ o, refsBase b kv.2 = false

lemma safe_getObj {b : Nat} {h : Heap} (hs : SafeHeap b h) (a : Nat) :
    ∀ kv ∈ getObj h a, refsBase b kv.2 = false := by
  intro kv hkv
  unfold getObj at hkv
  cases hg : (h : List _).get? a with
  | none => rw [hg] at hkv; simp at hkv
  | some o =>
    rw [hg] at hkv
    exact hs o (List.get?_mem hg) kv hkv

lemma asMap_eq {v : GoVal} {c : Nat} (h : asMap v = some c) : v = GoVal.vmap c := by
  cases v <;> simp [asMap] at h <;> rw [h]

lemma bind_asMap_ne {b : Nat} {h : Heap} {a : Nat} {k : String} {c : Nat}
    (hs : SafeHeap b h)
    (hc : (lookupKey k (getObj h a)).bind asMap = some c) : c ≠ b := by
  obtain ⟨v, hv, hvc⟩ := Option.bind_eq_some.mp hc
  have hmem := lookupKey_mem_pair hv
  have := safe_getObj hs a (k, v) hmem
  rw [asMap_eq hvc] at this
  simp [refsBase] at this
  exact this

lemma mem_set_cases {α : Type _} : ∀ (l : List α) (n : Nat) (x o : α),
    o ∈ l.set n x → o = x ∨ o ∈ l := by
  intro l
  induction l with
  | nil => intro n x o ho; simp at ho
  | cons a rest ih =>
    intro n x o ho
    cases n with
    | zero =>
      rcases List.mem_cons.mp ho with he | hm
      · exact Or.inl he
      · exact Or.inr (List.mem_cons_of_mem _ hm)
    | succ n =>
      rcases List.mem_cons.mp ho with he | hm
      · exact Or.inr (he ▸ List.mem_cons_self _ _)
      · rcases ih n x o hm with he | hmm
        · exact Or.inl he
        · exact Or.inr (List.mem_cons_of_mem _ hmm)

lemma objSet_mem_cases : ∀ (o : List (String × GoVal)) (k : String)
    (v : GoVal) (kv : String × GoVal),
    kv ∈ objSet o k v → kv = (k, v) ∨ kv ∈ o := by
  intro o
  induction o with
  | nil => intro k v kv hkv; simp [objSet] at hkv; exact Or.inl hkv
  | cons p rest ih =>
    intro k v kv hkv
    obtain ⟨k', v'⟩ := p
    unfold objSet at hkv
    by_cases hk : k = k'
    · rw [if_pos hk] at hkv
      rcases List.mem_cons.mp hkv with he | hm
      · exact Or.inl he
      · exact Or.inr (List.mem_cons_of_mem _ hm)
    · rw [if_neg hk] at hkv
      rcases List.mem_cons.mp hkv with he | hm
      · exact Or.inr (he ▸ List.mem_cons_self _ _)
      · rcases ih k v kv hm with he | hmm
        · exact Or.inl he
        · exact Or.inr (List.mem_cons_of_mem _ hmm)

lemma writeKey_safe {b : Nat} {h : Heap} {a : Nat} {k : String} {v : GoVal}
    (hs : SafeHeap b h) (hv : refsBase b v = false) :
    SafeHeap b (writeKey h a k v) := by
  intro o ho kv hkv
  unfold writeKey at ho
  rcases mem_set_cases _ a _ o ho with he | hm
  · subst he
    rcases objSet_mem_cases _ k v kv hkv with he | hm
    · rw [he]; exact hv
    · exact safe_getObj hs a kv hm
  · exact hs o hm kv hkv

lemma getObj_writeKey_ne {h : Heap} {a b : Nat} {k : String} {v : GoVal}
    (hab : a ≠ b) : getObj (writeKey h a k v) b = getObj h b := by
  unfold writeKey getObj
  rw [List.get?_set_ne _ _ hab]

lemma fold_writes_preserves {b tgt : Nat} (kvs : List (String × GoVal)) :
    ∀ h : Heap, SafeHeap b h → tgt ≠ b →
    (∀ kv ∈ kvs, refsBase b kv.2 = false) →
    SafeHeap b (kvs.foldl (fun hh kv => writeKey hh tgt kv.1 kv.2) h) ∧
    getObj (kvs.foldl (fun hh kv => writeKey hh tgt kv.1 kv.2) h) b =
      getObj h b := by
  induction kvs with
  | nil => intro h hs _ _; exact ⟨hs, rfl⟩
  | cons kv rest ih =>
    intro h hs htgt hvals
    rw [List.foldl_cons]
    have hw : SafeHeap b (writeKey h tgt kv.1 kv.2) :=
      writeKey_safe hs (hvals kv (List.mem_cons_self _ _))
    obtain ⟨h1, h2⟩ := ih (writeKey h tgt kv.1 kv.2) hw htgt
      (fun q hq => hvals q (List.mem_cons_of_mem _ hq))
    exact ⟨h1, h2.trans (getObj_writeKey_ne htgt)⟩

lemma foldl_step_preserves {α : Type _} {b : Nat}
    (step : Heap → α → Heap) (l : List α)
    (hstep : ∀ (h : Heap) (x : α), x ∈ l → SafeHeap b h →
      SafeHeap b (step h x) ∧ getObj (step h x) b = getObj h b) :
    ∀ h : Heap, SafeHeap b h →
    SafeHeap b (l.foldl step h) ∧ getObj (l.foldl step h) b = getObj h b := by
  induction l with
  | nil => intro h hs; exact ⟨hs, rfl⟩
  | cons x rest ih =>
    intro h hs
    rw [List.foldl_cons]
    obtain ⟨hs1, he1⟩ := hstep h x (List.mem_cons_self _ _) hs
    obtain ⟨hs2, he2⟩ := ih
      (fun hh y hy hsh => hstep hh y (List.mem_cons_of_mem _ hy) hsh)
      (step h x) hs1
    exact ⟨hs2, he2.trans he1⟩

lemma mergePaths_preserves {b : Nat} {h : Heap} {merged custom : Nat}
    (hs : SafeHeap b h) (hm : merged ≠ b) :
    SafeHeap b (mergePaths h merged custom) ∧
    getObj (mergePaths h merged custom) b = getObj h b := by
  unfold mergePaths
  cases hcp : (lookupKey "paths" (getObj h custom)).bind asMap with
  | none => exact ⟨hs, rfl⟩
  | some cp =>
    cases hbp : (lookupKey "paths" (getObj h merged)).bind asMap with
    | some bp =>
      exact fold_writes_preserves (getObj h cp) h hs (bind_asMap_ne hs hbp)
        (fun kv hkv => safe_getObj hs cp kv hkv)
    | none =>
      refine ⟨writeKey_safe hs ?_, getObj_writeKey_ne hm⟩
      have := bind_asMap_ne hs hcp
      simp [refsBase]
      exact this

lemma mergeComponentType_preserves {b bc : Nat} (hbc : bc ≠ b)
    (h : Heap) (kv : String × GoVal)
    (hs : SafeHeap b h) (hkv : refsBase b kv.2 = false) :
    SafeHeap b (mergeComponentType bc h kv) ∧
    getObj (mergeComponentType bc h kv) b = getObj h b := by
  unfold mergeComponentType
  cases hcs : asMap kv.2 with
  | none => exact ⟨hs, rfl⟩
  | some cs =>
    cases hbs : (lookupKey kv.1 (getObj h bc)).bind asMap with
    | some bs =>
      exact fold_writes_preserves (getObj h cs) h hs (bind_asMap_ne hs hbs)
        (fun q hq => safe_getObj hs cs q hq)
    | none =>
      refine ⟨writeKey_safe hs ?_, getObj_writeKey_ne hbc⟩
      rw [asMap_eq hcs] at hkv
      simpa [refsBase] using hkv

lemma mergeComponents_preserves {b : Nat} {h : Heap} {merged custom : Nat}
    (hs : SafeHeap b h) (hm : merged ≠ b) :
    SafeHeap b (mergeComponents h merged custom) ∧
    getObj (mergeComponents h merged custom) b = getObj h b := by
  unfold mergeComponents
  cases hcc : (lookupKey "components" (getObj h custom)).bind asMap with
  | none => exact ⟨hs, rfl⟩
  | some cc =>
    cases hbc : (lookupKey "components" (getObj h merged)).bind asMap with
    | some bc =>
      exact foldl_step_preserves (mergeComponentType bc) (getObj h cc)
        (fun hh kv hkv hsh =>
          mergeComponentType_preserves (bind_asMap_ne hs hbc) hh kv hsh
            (safe_getObj hs cc kv hkv)) h hs
    | none =>
      refine ⟨writeKey_safe hs ?_, getObj_writeKey_ne hm⟩
      have := bind_asMap_ne hs hcc
      simp [refsBase]
      exact this

lemma mergeTags_preserves {b : Nat} {h : Heap} {merged custom : Nat}
    (hs : SafeHeap b h) (hm : merged ≠ b) :
    SafeHeap b (mergeTags h merged custom) ∧
    getObj (mergeTags h merged custom) b = getObj h b := by
  unfold mergeTags
  cases hct : (lookupKey "tags" (getObj h custom)).bind asArr with
  | none => exact ⟨hs, rfl⟩
  | some ct =>
    cases hbt : (lookupKey "tags" (getObj h merged)).bind asArr with
    | some bt =>
      exact ⟨writeKey_safe hs (by simp [refsBase]), getObj_writeKey_ne hm⟩
    | none =>
      exact ⟨writeKey_safe hs (by simp [refsBase]), getObj_writeKey_ne hm⟩

/-- **C8.** For every base specification (a top-level map that is not
referenced as a nested value anywhere — always the case for a
specification read from JSON/YAML, which is a tree) and every custom
fragment, `MergeOpenAPISpecs` returns a freshly allocated top-level map
and never adds, removes, or rebinds any key of the caller's base
top-level map; only structures nested under it may be mutated in place. -/
theorem mergeOpenAPISpecs_preserves_base (h : Heap) (baseSpec customSpec : Nat)
    (hb : baseSpec < h.length) (hs : SafeHeap baseSpec h) :
    (mergeOpenAPISpecs h baseSpec customSpec).1 = h.length ∧
    (mergeOpenAPISpecs h baseSpec customSpec).1 ≠ baseSpec ∧
    getObj (mergeOpenAPISpecs h baseSpec customSpec).2 baseSpec =
      getObj h baseSpec := by
  have hm : h.length ≠ baseSpec := by omega
  have hs1 : SafeHeap baseSpec (h ++ [getObj h baseSpec]) := by
    intro o ho kv hkv
    rcases List.mem_append.mp ho with hmem | hmem
    · exact hs o hmem kv hkv
    · have : o = getObj h baseSpec := by simpa using hmem
      subst this
      exact safe_getObj hs baseSpec kv hkv
  have he1 : getObj (h ++ [getObj h baseSpec]) baseSpec = getObj h baseSpec := by
    unfold getObj
    rw [List.get?_append hb]
  obtain ⟨hs2, he2⟩ := @mergePaths_preserves baseSpec
    (h ++ [getObj h baseSpec]) h.length customSpec hs1 hm
  obtain ⟨hs3, he3⟩ := @mergeComponents_preserves baseSpec
    (mergePaths (h ++ [getObj h baseSpec]) h.length customSpec)
    h.length customSpec hs2 hm
  obtain ⟨hs4, he4⟩ := @mergeTags_preserves baseSpec
    (mergeComponents (mergePaths (h ++ [getObj h baseSpec]) h.length customSpec)
      h.length customSpec)
    h.length customSpec hs3 hm
  refine ⟨rfl, hm, ?_⟩
  show getObj (mergeTags (mergeComponents (mergePaths
    (h ++ [getObj h baseSpec]) h.length customSpec) h.length customSpec)
    h.length customSpec) baseSpec = getObj h baseSpec
  rw [he4, he3, he2, he1]

/-- C8 witness heap: base at 0 with a paths object at 2, custom at 1 with
a paths object at 3. -/
def heapWit8 : Heap :=
  [[("paths", GoVal.vmap 2), ("tags", GoVal.varr [])],
   [("paths", GoVal.vmap 3)],
   [("/a", GoVal.vstr "x")],
   [("/b", GoVal.vstr "y")]]

theorem mergeOpenAPISpecs_preserves_base_witness :
    0 < heapWit8.length ∧ SafeHeap 0 heapWit8 ∧
    (mergeOpenAPISpecs heapWit8 0 1).1 = heapWit8.length ∧
    (mergeOpenAPISpecs heapWit8 0 1).1 ≠ 0 ∧
    getObj (mergeOpenAPISpecs heapWit8 0 1).2 0 = getObj heapWit8 0 := by
  have h1 : 0 < heapWit8.length := by decide
  have h2 : SafeHeap 0 heapWit8 := by unfold SafeHeap; decide
  obtain ⟨a, b, c⟩ := mergeOpenAPISpecs_preserves_base heapWit8 0 1 h1 h2
  exact ⟨h1, h2, a, b, c⟩
